import Mathlib

/-!
Verification of the AuraCalistenia membership portal (`app.py`): a shallow
embedding of its credential hashing, session table, cookie parsing, JSON
document store, plan normalization and the login / application handlers,
with theorems checking the specified properties against the embedded code.

Conventions of the embedding:
* Python `bytes` values are `List (Fin 256)`.
* Python `str` values are Lean `String`s, but every string transformation
  (`strip`, `split`, `lower`, …) is implemented structurally over
  `List Char` so that it evaluates inside the kernel.
* I/O is made explicit: functions that read or write a JSON file take the
  document as an argument and return the document they persist; the wall
  clock (`time.time()`) and the random source (`secrets`) are injected as
  arguments.
* `hashlib.pbkdf2_hmac("sha256", ·, ·, 120000)` is kept abstract as a
  function parameter `pbkdf2` (its only property used by the code is that
  it is a pure function producing a 32-byte digest).
-/

namespace Aura

abbrev Byte := Fin 256
abbrev Bytes := List Byte

/-! ### Python string primitives (over `List Char`) -/

/-- Characters removed by Python `str.strip()` with no arguments. -/
def pyWs (c : Char) : Bool :=
  c = ' ' || c = '\t' || c = '\n' || c = '\x0d' || c = '\x0b' || c = '\x0c'

/-- `str.strip()` on a character list: drop leading and trailing whitespace. -/
def stripChars (l : List Char) : List Char :=
  ((l.dropWhile pyWs).reverse.dropWhile pyWs).reverse

/-- Python `s.strip()`. -/
def pyStrip (s : String) : String := ⟨stripChars s.data⟩

/-- Python `s.lower()` (ASCII case folding, which is all the code relies on). -/
def pyLower (s : String) : String := ⟨s.data.map Char.toLower⟩

/-- Python `s.split(sep)` for a one-character separator. -/
def splitOnChar (sep : Char) : List Char → List (List Char)
  | [] => [[]]
  | c :: rest =>
    let r := splitOnChar sep rest
    if c = sep then [] :: r
    else
      match r with
      | [] => [[c]]
      | h :: t => (c :: h) :: t

/-- Python `s.split(sep, 1)` restricted to the case where `sep` occurs:
`none` when the separator is absent (`sep in s` is false). -/
def splitFirst (sep : Char) : List Char → Option (List Char × List Char)
  | [] => none
  | c :: rest =>
    if c = sep then some ([], rest)
    else (splitFirst sep rest).map (fun p => (c :: p.1, p.2))

/-- Python `s.startswith(pre)` on character lists. -/
def startsWithChars : List Char → List Char → Bool
  | _, [] => true
  | [], _ :: _ => false
  | c :: cs, p :: ps => c = p && startsWithChars cs ps

/-! ### Python dict as an association list (insertion ordered, keys unique) -/

/-- `d.get(k)` / `d[k]`: value at the first matching key. -/
def dictGet {α : Type} (d : List (String × α)) (k : String) : Option α :=
  (d.find? (fun p => p.1 == k)).map Prod.snd

/-- `k in d`. -/
def dictContains {α : Type} (d : List (String × α)) (k : String) : Bool :=
  d.any (fun p => p.1 == k)

/-- `d[k] = v`: replace the value at the (unique) existing key in place,
else append the new binding at the end, as a Python dict does. -/
def dictSet {α : Type} : List (String × α) → String → α → List (String × α)
  | [], k, v => [(k, v)]
  | p :: rest, k, v =>
    if p.1 == k then (k, v) :: rest else p :: dictSet rest k v

/-! ### base64 (`base64.b64encode` / `base64.b64decode`) -/

/-- Character of a 6-bit group in the standard base64 alphabet. -/
def b64Char (v : Fin 64) : Char :=
  if v.val < 26 then Char.ofNat (65 + v.val)
  else if v.val < 52 then Char.ofNat (97 + (v.val - 26))
  else if v.val < 62 then Char.ofNat (48 + (v.val - 52))
  else if v.val = 62 then '+' else '/'

/-- 6-bit value of a base64 alphabet character; `none` outside the alphabet. -/
def b64Val (c : Char) : Option (Fin 64) :=
  let n := c.toNat
  if h : 65 ≤ n ∧ n ≤ 90 then some ⟨n - 65, by omega⟩
  else if h : 97 ≤ n ∧ n ≤ 122 then some ⟨n - 97 + 26, by omega⟩
  else if h : 48 ≤ n ∧ n ≤ 57 then some ⟨n - 48 + 52, by omega⟩
  else if c = '+' then some ⟨62, by omega⟩
  else if c = '/' then some ⟨63, by omega⟩
  else none

/-- Encode bytes three at a time into base64 characters, `=`-padded. -/
def b64EncodeChunks : Bytes → List Char
  | [] => []
  | [a] =>
    [b64Char ⟨a.val / 4, by have := a.isLt; omega⟩,
     b64Char ⟨a.val % 4 * 16, by have := a.isLt; omega⟩, '=', '=']
  | [a, b] =>
    [b64Char ⟨a.val / 4, by have := a.isLt; omega⟩,
     b64Char ⟨a.val % 4 * 16 + b.val / 16, by have := a.isLt; have := b.isLt; omega⟩,
     b64Char ⟨b.val % 16 * 4, by have := b.isLt; omega⟩, '=']
  | a :: b :: c :: rest =>
    b64Char ⟨a.val / 4, by have := a.isLt; omega⟩ ::
    b64Char ⟨a.val % 4 * 16 + b.val / 16, by have := a.isLt; have := b.isLt; omega⟩ ::
    b64Char ⟨b.val % 16 * 4 + c.val / 64, by have := b.isLt; have := c.isLt; omega⟩ ::
    b64Char ⟨c.val % 64, by have := c.isLt; omega⟩ :: b64EncodeChunks rest

/-- `base64.b64encode(bs).decode("ascii")`. -/
def b64encode (bs : Bytes) : String := ⟨b64EncodeChunks bs⟩

/-- Decode base64 characters four at a time; `=` may appear only as final
padding. `none` models the `binascii.Error` raised on malformed input. -/
def b64DecodeQuads : List Char → Option Bytes
  | [] => some []
  | c1 :: c2 :: c3 :: c4 :: rest => do
    let v1 ← b64Val c1
    let v2 ← b64Val c2
    if c3 = '=' then
      if c4 = '=' ∧ rest = [] then
        some [⟨v1.val * 4 + v2.val / 16, by have := v1.isLt; have := v2.isLt; omega⟩]
      else none
    else do
      let v3 ← b64Val c3
      if c4 = '=' then
        if rest = [] then
          some [⟨v1.val * 4 + v2.val / 16, by have := v1.isLt; have := v2.isLt; omega⟩,
                ⟨v2.val % 16 * 16 + v3.val / 4, by have := v2.isLt; have := v3.isLt; omega⟩]
        else none
      else do
        let v4 ← b64Val c4
        let bs ← b64DecodeQuads rest
        some (⟨v1.val * 4 + v2.val / 16, by have := v1.isLt; have := v2.isLt; omega⟩ ::
              ⟨v2.val % 16 * 16 + v3.val / 4, by have := v2.isLt; have := v3.isLt; omega⟩ ::
              ⟨v3.val % 4 * 64 + v4.val, by have := v3.isLt; have := v4.isLt; omega⟩ :: bs)
  | _ => none

/-- `base64.b64decode(s)`: characters outside the alphabet and padding are
discarded first (CPython's non-validating mode), then quads are decoded. -/
def b64decode (s : String) : Option Bytes :=
  b64DecodeQuads (s.data.filter (fun c => (b64Val c).isSome || c = '='))

/-! ### Credential store (`hash_password` / `verify_password`) -/

/-- `secrets.compare_digest` on two byte strings: equality (the code relies
only on its result, not its timing). -/
def compare_digest (a b : Bytes) : Bool := a == b

/-- `hash_password(password, salt)`: PBKDF2 the password with the salt and
return both base64-encoded. The PBKDF2-HMAC-SHA256/120000 kernel is the
`pbkdf2` parameter. -/
def hash_password (pbkdf2 : Bytes → Bytes → Bytes) (password salt : Bytes) :
    String × String :=
  (b64encode salt, b64encode (pbkdf2 password salt))

/-- `verify_password(password, salt_b64, hash_b64)`: decode both fields
(decode failure is caught and yields `False`), recompute, compare. -/
def verify_password (pbkdf2 : Bytes → Bytes → Bytes) (password : Bytes)
    (salt_b64 hash_b64 : String) : Bool :=
  match b64decode salt_b64, b64decode hash_b64 with
  | some salt, some expected => compare_digest (pbkdf2 password salt) expected
  | _, _ => false

/-! ### base64 round-trip lemmas -/

theorem b64Val_b64Char : ∀ v : Fin 64, b64Val (b64Char v) = some v := by decide

theorem b64Char_ne_eq (v : Fin 64) : (b64Char v = '=') = False := by
  revert v; decide

theorem b64EncodeChunks_valid (bs : Bytes) :
    ∀ c ∈ b64EncodeChunks bs, ((b64Val c).isSome || c = '=') = true := by
  induction bs using b64EncodeChunks.induct with
  | case1 => intro c hc; simp [b64EncodeChunks] at hc
  | case2 a =>
    intro c hc
    simp only [b64EncodeChunks, List.mem_cons, List.not_mem_nil, or_false] at hc
    rcases hc with h | h | h | h <;> subst h <;> simp [b64Val_b64Char]
  | case3 a b =>
    intro c hc
    simp only [b64EncodeChunks, List.mem_cons, List.not_mem_nil, or_false] at hc
    rcases hc with h | h | h | h <;> subst h <;> simp [b64Val_b64Char]
  | case4 a b c rest ih =>
    intro x hx
    simp only [b64EncodeChunks, List.mem_cons] at hx
    rcases hx with h | h | h | h | h
    · subst h; simp [b64Val_b64Char]
    · subst h; simp [b64Val_b64Char]
    · subst h; simp [b64Val_b64Char]
    · subst h; simp [b64Val_b64Char]
    · exact ih x h

theorem b64DecodeQuads_encode (bs : Bytes) :
    b64DecodeQuads (b64EncodeChunks bs) = some bs := by
  induction bs using b64EncodeChunks.induct with
  | case1 => rfl
  | case2 a =>
    have ha := a.isLt
    simp only [b64EncodeChunks, b64DecodeQuads, b64Val_b64Char, Option.bind_some,
      Option.some_bind]
    simp only [Option.bind_eq_bind, Option.some_bind, b64Char_ne_eq]
    norm_num
    apply Fin.ext
    simp only [Fin.val_mk]
    omega
  | case3 a b =>
    have ha := a.isLt; have hb := b.isLt
    simp only [b64EncodeChunks, b64DecodeQuads, b64Val_b64Char,
      Option.bind_eq_bind, Option.some_bind, b64Char_ne_eq]
    norm_num
    constructor <;> (apply Fin.ext; simp only [Fin.val_mk]; omega)
  | case4 a b c rest ih =>
    have ha := a.isLt; have hb := b.isLt; have hc := c.isLt
    simp only [b64EncodeChunks, b64DecodeQuads, b64Val_b64Char,
      Option.bind_eq_bind, Option.some_bind, b64Char_ne_eq, ih]
    norm_num
    refine ⟨?_, ?_, ?_⟩ <;> (apply Fin.ext; simp only [Fin.val_mk]; omega)

theorem b64decode_b64encode (bs : Bytes) : b64decode (b64encode bs) = some bs := by
  have hfilter :
      (b64EncodeChunks bs).filter (fun c => (b64Val c).isSome || c = '=') =
        b64EncodeChunks bs :=
    List.filter_eq_self.mpr (by
      intro c hc
      simpa using b64EncodeChunks_valid bs c hc)
  simp only [b64decode, b64encode]
  show b64DecodeQuads ((b64EncodeChunks bs).filter _) = some bs
  rw [hfilter, b64DecodeQuads_encode]

/-! ### Dict lemmas -/

theorem dictContains_cons {α : Type} (p : String × α) (d : List (String × α))
    (k : String) : dictContains (p :: d) k = (p.1 == k || dictContains d k) := by
  simp [dictContains]

theorem dictGet_none {α : Type} {d : List (String × α)} {k : String}
    (h : dictContains d k = false) : dictGet d k = none := by
  induction d with
  | nil => rfl
  | cons p rest ih =>
    rw [dictContains_cons, Bool.or_eq_false_iff] at h
    simp only [dictGet, List.find?_cons, h.1, cond_false]
    exact ih h.2

theorem dictGet_append_fresh {α : Type} {d : List (String × α)} {k : String}
    (v : α) (h : dictContains d k = false) :
    dictGet (d ++ [(k, v)]) k = some v := by
  induction d with
  | nil => simp [dictGet, List.find?]
  | cons p rest ih =>
    rw [dictContains_cons, Bool.or_eq_false_iff] at h
    simp only [List.cons_append, dictGet, List.find?_cons, h.1, cond_false]
    exact ih h.2

theorem dictContains_filter {α : Type} {d : List (String × α)} {k : String}
    (p : String × α → Bool) (h : dictContains d k = false) :
    dictContains (d.filter p) k = false := by
  induction d with
  | nil => rfl
  | cons q rest ih =>
    rw [dictContains_cons, Bool.or_eq_false_iff] at h
    by_cases hq : p q = true
    · rw [List.filter_cons, if_pos hq, dictContains_cons, Bool.or_eq_false_iff]
      exact ⟨h.1, ih h.2⟩
    · rw [List.filter_cons, if_neg hq]
      exact ih h.2

theorem dictContains_filter_out {α : Type} (d : List (String × α)) (k : String) :
    dictContains (d.filter (fun p => !(p.1 == k))) k = false := by
  induction d with
  | nil => rfl
  | cons p rest ih =>
    by_cases hp : p.1 == k
    · simpa [List.filter_cons, hp] using ih
    · simp only [List.filter_cons, Bool.not_eq_true', hp]
      simpa [dictContains_cons, hp] using ih

theorem dictSet_fresh {α : Type} {d : List (String × α)} {k : String} (v : α)
    (h : dictContains d k = false) : dictSet d k v = d ++ [(k, v)] := by
  induction d with
  | nil => rfl
  | cons p rest ih =>
    rw [dictContains_cons, Bool.or_eq_false_iff] at h
    simp only [dictSet, h.1, Bool.false_eq_true, if_false, List.cons_append,
      List.cons.injEq, true_and]
    exact ih h.2

theorem dictGet_dictSet {α : Type} (d : List (String × α)) (k : String) (v : α)
    (k' : String) :
    dictGet (dictSet d k v) k' = if k' = k then some v else dictGet d k' := by
  induction d with
  | nil =>
    by_cases h : k' = k
    · subst h; simp [dictSet, dictGet, List.find?]
    · have hne : (k == k') = false := by
        rw [beq_eq_false_iff_ne]; exact fun e => h e.symm
      simp [dictSet, dictGet, List.find?, hne, h]
  | cons p rest ih =>
    by_cases hp : p.1 == k
    · replace hp : p.1 = k := by simpa [beq_iff_eq] using hp
      by_cases hk : k' = k
      · subst hk; simp [dictSet, hp, dictGet, List.find?_cons]
      · have h1 : (k == k') = false := by simp [beq_iff_eq]; exact fun e => hk e.symm
        have h2 : (p.1 == k') = false := by
          subst hp; exact h1
        simp [dictSet, hp, dictGet, List.find?_cons, h1, h2, hk]
    · have hp' : (p.1 == k) = false := by simpa using hp
      by_cases hq : p.1 == k'
      · replace hq : p.1 = k' := by simpa [beq_iff_eq] using hq
        have hk : ¬ k' = k := by
          intro e; rw [e] at hq; exact hp (by simp [hq])
        simp [dictSet, hp', dictGet, List.find?_cons, hq, hk]
      · have hq' : (p.1 == k') = false := by simpa using hq
        simp only [dictSet, hp', Bool.false_eq_true, if_false, dictGet,
          List.find?_cons, hq', cond_false]
        exact ih

/-! ### Session table (`clean_sessions`, `create_session`, `delete_session`,
`get_session_user`, `get_cookie_token`) -/

/-- One entry of the persisted `sessions.json` table. -/
structure SessionData where
  user : String
  role : String
  expires : Nat
deriving DecidableEq

/-- `sessions.json`: a dict from token to session entry. -/
abbrev SessionTable := List (String × SessionData)

def SESSION_TTL : Nat := 12 * 60 * 60

def ADMIN_SESSION_COOKIE : String := "aura_admin_session"

def USER_SESSION_COOKIE : String := "aura_user_session"

/-- `clean_sessions(sessions)`: keep entries with `expires > now`. -/
def clean_sessions (sessions : SessionTable) (now : Nat) : SessionTable :=
  sessions.filter (fun p => decide (now < p.2.expires))

/-- `create_session(username, role)`. The clock value and the fresh token
drawn from `secrets.token_urlsafe(32)` are injected; the returned table is
the one `save_json` persists. -/
def create_session (sessions : SessionTable) (username role : String)
    (now : Nat) (token : String) : String × SessionTable :=
  let cleaned := clean_sessions sessions now
  let saved := dictSet cleaned token ⟨username, role, now + SESSION_TTL⟩
  (token, saved)

/-- `delete_session(token)`: drop the binding and rewrite the file only when
the token is present. -/
def delete_session (sessions : SessionTable) (token : String) : SessionTable :=
  if dictContains sessions token then
    sessions.filter (fun p => !(p.1 == token))
  else sessions

/-- The cookie dict built inside `get_session_user`: split the header on
`;`, keep parts containing `=`, split each at the first `=`, strip key and
value; later occurrences of a key overwrite earlier ones. -/
def parse_cookies (header : String) : List (String × String) :=
  (splitOnChar ';' header.data).foldl
    (fun acc part =>
      match splitFirst '=' part with
      | none => acc
      | some (k, v) => dictSet acc ⟨stripChars k⟩ ⟨stripChars v⟩)
    []

/-- `get_session_user(cookie_header, cookie_name, role)`. Returns the
resolved user together with the session table as persisted on disk after
the call (the cleaned table is saved whenever a token was extracted). -/
def get_session_user (cookie_header : Option String) (cookie_name : String)
    (role : Option String) (sessions : SessionTable) (now : Nat) :
    Option String × SessionTable :=
  match cookie_header with
  | none => (none, sessions)
  | some header =>
    if header = "" then (none, sessions)
    else
      match dictGet (parse_cookies header) cookie_name with
      | none => (none, sessions)
      | some token =>
        if token = "" then (none, sessions)
        else
          let cleaned := clean_sessions sessions now
          match dictGet cleaned token with
          | none => (none, cleaned)
          | some data =>
            match role with
            | none => (some data.user, cleaned)
            | some r => if data.role = r then (some data.user, cleaned)
                        else (none, cleaned)

/-- `get_cookie_token(cookie_header, cookie_name)`: first `;`-part whose
stripped form starts with `cookie_name=`, taking what follows the first
`=`. -/
def get_cookie_token (cookie_header : Option String) (cookie_name : String) :
    Option String :=
  match cookie_header with
  | none => none
  | some header =>
    if header = "" then none
    else
      (splitOnChar ';' header.data).findSome? (fun part =>
        let stripped := stripChars part
        if startsWithChars stripped (cookie_name.data ++ ['=']) then
          match splitFirst '=' stripped with
          | some (_, v) => some (⟨v⟩ : String)
          | none => none
        else none)

/-- Written from the spec's words, for comparison with the code's cookie
dict: the value of the last `key=value` part of the header whose stripped
key is `cn`. -/
def lastOccurrenceValue (header : String) (cn : String) : Option String :=
  (splitOnChar ';' header.data).foldl
    (fun acc part =>
      match splitFirst '=' part with
      | none => acc
      | some (k, v) =>
        if cn = (⟨stripChars k⟩ : String) then some (⟨stripChars v⟩ : String)
        else acc)
    none

theorem dictGet_parse_cookies (header cn : String) :
    dictGet (parse_cookies header) cn = lastOccurrenceValue header cn := by
  have main : ∀ (parts : List (List Char)) (acc : List (String × String)),
      dictGet (parts.foldl
        (fun acc part =>
          match splitFirst '=' part with
          | none => acc
          | some (k, v) => dictSet acc ⟨stripChars k⟩ ⟨stripChars v⟩) acc) cn =
      parts.foldl
        (fun acc part =>
          match splitFirst '=' part with
          | none => acc
          | some (k, v) =>
            if cn = (⟨stripChars k⟩ : String) then some (⟨stripChars v⟩ : String)
            else acc) (dictGet acc cn) := by
    intro parts
    induction parts with
    | nil => intro acc; rfl
    | cons part rest ih =>
      intro acc
      simp only [List.foldl_cons]
      cases h : splitFirst '=' part with
      | none => exact ih acc
      | some kv =>
        rw [ih]
        congr 1
        rw [dictGet_dictSet]
  simpa using main (splitOnChar ';' header.data) []

/-! ### Session lemmas -/

theorem delete_session_absent (sessions : SessionTable) (tok : String)
    (h : dictContains sessions tok = false) :
    delete_session sessions tok = sessions := by
  unfold delete_session
  rw [h]
  simp

theorem dictContains_delete_session (sessions : SessionTable) (tok : String) :
    dictContains (delete_session sessions tok) tok = false := by
  unfold delete_session
  by_cases h : dictContains sessions tok
  · rw [if_pos h]
    exact dictContains_filter_out sessions tok
  · rw [if_neg h]
    simpa using h

theorem compare_digest_ne_length {a b : Bytes} (h : a.length ≠ b.length) :
    compare_digest a b = false := by
  rw [compare_digest, beq_eq_false_iff_ne]
  intro e
  exact h (by rw [e])

/-- Evaluation of `get_session_user` once a nonempty token has been
extracted from the cookie header. -/
theorem get_session_user_eval (header cn : String) (role : Option String)
    (sessions : SessionTable) (now : Nat) (tok : String)
    (hheader : header ≠ "")
    (hcookie : dictGet (parse_cookies header) cn = some tok)
    (htok : tok ≠ "") :
    get_session_user (some header) cn role sessions now =
      (match dictGet (clean_sessions sessions now) tok with
       | none => (none, clean_sessions sessions now)
       | some data =>
         match role with
         | none => (some data.user, clean_sessions sessions now)
         | some r => if data.role = r then (some data.user, clean_sessions sessions now)
                     else (none, clean_sessions sessions now)) := by
  simp only [get_session_user]
  rw [if_neg hheader, hcookie]
  simp only [if_neg htok]

/-! ### Claims C1, C2, C3, C6, C9, C10 -/

/-- **C1** Password round-trip: `verify_password(p, *hash_password(p, s))` is
`true` for every password and salt, and for a second password whose PBKDF2
digest under the same salt differs (i.e. unless PBKDF2 collides),
verification fails. -/
theorem C1_password_roundtrip (pbkdf2 : Bytes → Bytes → Bytes)
    (p p2 salt : Bytes) :
    verify_password pbkdf2 p (hash_password pbkdf2 p salt).1
        (hash_password pbkdf2 p salt).2 = true ∧
    (pbkdf2 p2 salt ≠ pbkdf2 p salt →
      verify_password pbkdf2 p2 (hash_password pbkdf2 p salt).1
        (hash_password pbkdf2 p salt).2 = false) := by
  constructor
  · simp [verify_password, hash_password, b64decode_b64encode, compare_digest]
  · intro hne
    simp only [verify_password, hash_password, b64decode_b64encode]
    rw [compare_digest, beq_eq_false_iff_ne]
    exact hne

theorem C1_password_roundtrip_witness :
    verify_password (fun p _ => p) [(0 : Byte)]
        (hash_password (fun p _ => p) [(0 : Byte)] []).1
        (hash_password (fun p _ => p) [(0 : Byte)] []).2 = true ∧
    verify_password (fun p _ => p) [(1 : Byte)]
        (hash_password (fun p _ => p) [(0 : Byte)] []).1
        (hash_password (fun p _ => p) [(0 : Byte)] []).2 = false :=
  ⟨(C1_password_roundtrip (fun p _ => p) [0] [1] []).1,
   (C1_password_roundtrip (fun p _ => p) [0] [1] []).2 (by decide)⟩

/-- **C2** Session lifecycle: a token issued by `create_session` and carried
by the cookie header resolves to the user while the clock is before the
stored expiry, and resolves to `none` with the entry gone from the
persisted table once the clock reaches the expiry. -/
theorem C2_session_lifecycle
    (table : SessionTable) (u r : String) (now1 : Nat) (tok : String)
    (header cn : String) (role : Option String) (now2 : Nat)
    (hfresh : dictContains table tok = false)
    (htok : tok ≠ "")
    (hheader : header ≠ "")
    (hcookie : dictGet (parse_cookies header) cn = some tok)
    (hrole : role = none ∨ role = some r) :
    (now2 < now1 + SESSION_TTL →
      (get_session_user (some header) cn role
        (create_session table u r now1 tok).2 now2).1 = some u) ∧
    (now1 + SESSION_TTL ≤ now2 →
      (get_session_user (some header) cn role
        (create_session table u r now1 tok).2 now2).1 = none ∧
      dictContains (get_session_user (some header) cn role
        (create_session table u r now1 tok).2 now2).2 tok = false) := by
  have hclean1 : dictContains (clean_sessions table now1) tok = false :=
    dictContains_filter _ hfresh
  have hsave : (create_session table u r now1 tok).2 =
      clean_sessions table now1 ++ [(tok, ⟨u, r, now1 + SESSION_TTL⟩)] := by
    simp only [create_session]
    exact dictSet_fresh _ hclean1
  have hclean2 : dictContains (clean_sessions (clean_sessions table now1) now2)
      tok = false := dictContains_filter _ hclean1
  constructor
  · intro hlt
    have hsplit : clean_sessions ((create_session table u r now1 tok).2) now2 =
        clean_sessions (clean_sessions table now1) now2 ++
          [(tok, ⟨u, r, now1 + SESSION_TTL⟩)] := by
      rw [hsave, clean_sessions, List.filter_append]
      congr 1
      simp [hlt]
    have hget : dictGet (clean_sessions ((create_session table u r now1 tok).2)
        now2) tok = some ⟨u, r, now1 + SESSION_TTL⟩ := by
      rw [hsplit]
      exact dictGet_append_fresh _ hclean2
    rw [get_session_user_eval header cn role _ now2 tok hheader hcookie htok, hget]
    rcases hrole with h | h <;> subst h <;> simp
  · intro hge
    have hsplit : clean_sessions ((create_session table u r now1 tok).2) now2 =
        clean_sessions (clean_sessions table now1) now2 := by
      rw [hsave, clean_sessions, List.filter_append]
      have : ¬ now2 < now1 + SESSION_TTL := by omega
      simp [this, clean_sessions]
    have hget : dictGet (clean_sessions ((create_session table u r now1 tok).2)
        now2) tok = none := by
      rw [hsplit]
      exact dictGet_none hclean2
    rw [get_session_user_eval header cn role _ now2 tok hheader hcookie htok, hget]
    refine ⟨rfl, ?_⟩
    show dictContains (clean_sessions ((create_session table u r now1 tok).2) now2)
      tok = false
    rw [hsplit]
    exact hclean2

theorem C2_session_lifecycle_witness :
    (dictContains ([] : SessionTable) "t" = false ∧ "t" ≠ "" ∧
      "aura_user_session=t" ≠ "" ∧
      dictGet (parse_cookies "aura_user_session=t") "aura_user_session" =
        some "t") ∧
    ((3 : Nat) < 0 + SESSION_TTL →
      (get_session_user (some "aura_user_session=t") "aura_user_session"
        (some "user") (create_session [] "ana" "user" 0 "t").2 3).1 = some "ana") ∧
    (0 + SESSION_TTL ≤ 3 →
      (get_session_user (some "aura_user_session=t") "aura_user_session"
        (some "user") (create_session [] "ana" "user" 0 "t").2 3).1 = none ∧
      dictContains (get_session_user (some "aura_user_session=t")
        "aura_user_session" (some "user")
        (create_session [] "ana" "user" 0 "t").2 3).2 "t" = false) :=
  ⟨⟨by decide, by decide, by decide, by decide⟩,
   C2_session_lifecycle [] "ana" "user" 0 "t" "aura_user_session=t"
     "aura_user_session" (some "user") 3 (by decide) (by decide) (by decide)
     (by decide) (Or.inr rfl)⟩

/-- **C3** (counterexample) With the session cookie name appearing twice in
the header with different values, `get_session_user` resolves the token of
the *last* occurrence ("beta" ↦ "bob"), not the first ("alpha" ↦ "alice"):
the claim that the first occurrence wins is false. -/
theorem C3_first_occurrence_counterexample :
    (get_session_user (some "sid=alpha; sid=beta") "sid" none
      [("alpha", ⟨"alice", "user", 100⟩), ("beta", ⟨"bob", "user", 100⟩)] 0).1 =
      some "bob" ∧
    (some "bob" : Option String) ≠ some "alice" := by
  constructor
  · decide
  · decide

/-- **C3** (amended) The token `get_session_user` looks up is the value of
the *last* occurrence of the cookie name in the header: the cookie dict it
builds maps each name to the last `key=value` part carrying that name. -/
theorem C3_last_occurrence_wins (header cn : String) :
    dictGet (parse_cookies header) cn = lastOccurrenceValue header cn :=
  dictGet_parse_cookies header cn

/-- **C6** Session deletion: after `delete_session(token)` the token no
longer resolves; deleting twice equals deleting once; and deleting an
absent token leaves the table unchanged. -/
theorem C6_delete_session (sessions : SessionTable) (tok : String)
    (header cn : String) (role : Option String) (now : Nat)
    (hheader : header ≠ "")
    (hcookie : dictGet (parse_cookies header) cn = some tok) :
    (get_session_user (some header) cn role (delete_session sessions tok)
      now).1 = none ∧
    delete_session (delete_session sessions tok) tok =
      delete_session sessions tok ∧
    (dictContains sessions tok = false →
      delete_session sessions tok = sessions) := by
  have hnot : dictContains (delete_session sessions tok) tok = false :=
    dictContains_delete_session sessions tok
  refine ⟨?_, delete_session_absent _ _ hnot, fun h => delete_session_absent _ _ h⟩
  by_cases htok : tok = ""
  · subst htok
    simp only [get_session_user]
    rw [if_neg hheader, hcookie]
    simp
  · rw [get_session_user_eval header cn role _ now tok hheader hcookie htok]
    have hget : dictGet (clean_sessions (delete_session sessions tok) now) tok =
        none := dictGet_none (dictContains_filter _ hnot)
    rw [hget]

theorem C6_delete_session_witness :
    ("c=t" ≠ "" ∧ dictGet (parse_cookies "c=t") "c" = some "t") ∧
    (get_session_user (some "c=t") "c" none
      (delete_session [("t", ⟨"u", "user", 5⟩)] "t") 0).1 = none ∧
    delete_session (delete_session [("t", ⟨"u", "user", 5⟩)] "t") "t" =
      delete_session [("t", ⟨"u", "user", 5⟩)] "t" ∧
    (dictContains [("t", (⟨"u", "user", 5⟩ : SessionData))] "t" = false →
      delete_session [("t", ⟨"u", "user", 5⟩)] "t" = [("t", ⟨"u", "user", 5⟩)]) :=
  ⟨⟨by decide, by decide⟩,
   C6_delete_session [("t", ⟨"u", "user", 5⟩)] "t" "c=t" "c" none 0
     (by decide) (by decide)⟩

/-- **C9** `create_session` prunes the table: the persisted table is the
prior table with expired entries removed plus exactly one fresh entry
`{user, role, expires = now + 12h}` appended, and every persisted entry is
unexpired at creation time. -/
theorem C9_create_session_prunes (table : SessionTable) (u r tok : String)
    (now : Nat) (hfresh : dictContains table tok = false) :
    (create_session table u r now tok).2 =
      clean_sessions table now ++ [(tok, ⟨u, r, now + SESSION_TTL⟩)] ∧
    (∀ p ∈ (create_session table u r now tok).2, now < p.2.expires) ∧
    SESSION_TTL = 12 * 60 * 60 := by
  have h1 : (create_session table u r now tok).2 =
      clean_sessions table now ++ [(tok, ⟨u, r, now + SESSION_TTL⟩)] := by
    simp only [create_session]
    exact dictSet_fresh _ (dictContains_filter _ hfresh)
  refine ⟨h1, ?_, rfl⟩
  rw [h1]
  intro p hp
  rcases List.mem_append.mp hp with h | h
  · exact of_decide_eq_true (List.mem_filter.mp h).2
  · rw [List.mem_singleton] at h
    subst h
    show now < now + SESSION_TTL
    simp [SESSION_TTL]

theorem C9_create_session_prunes_witness :
    dictContains [("old", (⟨"o", "user", 3⟩ : SessionData))] "t" = false ∧
    (create_session [("old", ⟨"o", "user", 3⟩)] "ana" "user" 5 "t").2 =
      clean_sessions [("old", ⟨"o", "user", 3⟩)] 5 ++
        [("t", ⟨"ana", "user", 5 + SESSION_TTL⟩)] :=
  ⟨by decide,
   (C9_create_session_prunes [("old", ⟨"o", "user", 3⟩)] "ana" "user" "t" 5
     (by decide)).1⟩

/-- **C10** `verify_password` fails closed on well-formed but wrong-length
stored credentials: empty stored fields verify to `false`, and any stored
hash that decodes to other than 32 bytes verifies to `false`, given that
PBKDF2-HMAC-SHA256 produces 32-byte digests. -/
theorem C10_verify_fails_closed (pbkdf2 : Bytes → Bytes → Bytes)
    (hlen : ∀ p s, (pbkdf2 p s).length = 32) (p : Bytes) :
    verify_password pbkdf2 p "" "" = false ∧
    (∀ salt_b64 hash_b64 stored, b64decode hash_b64 = some stored →
      stored.length ≠ 32 → verify_password pbkdf2 p salt_b64 hash_b64 = false) := by
  constructor
  · have hdec : b64decode "" = some ([] : Bytes) := rfl
    simp only [verify_password, hdec]
    exact compare_digest_ne_length (by rw [hlen]; simp)
  · intro salt_b64 hash_b64 stored hdec hne
    cases hs : b64decode salt_b64 with
    | none => simp only [verify_password, hdec, hs]
    | some s =>
      simp only [verify_password, hdec, hs]
      exact compare_digest_ne_length (by rw [hlen]; omega)

theorem C10_verify_fails_closed_witness :
    (∀ p s, ((fun (_ _ : Bytes) => (List.replicate 32 (0 : Byte))) p s).length
      = 32) ∧
    verify_password (fun _ _ => List.replicate 32 0) [] "" "" = false ∧
    verify_password (fun _ _ => List.replicate 32 0) [] "x" "AA==" = false :=
  ⟨fun _ _ => by simp,
   (C10_verify_fails_closed (fun _ _ => List.replicate 32 0)
     (fun _ _ => by simp) []).1,
   (C10_verify_fails_closed (fun _ _ => List.replicate 32 0)
     (fun _ _ => by simp) []).2 "x" "AA==" [0] (by decide) (by decide)⟩

/-! ### JSON values

Python objects stored in the JSON documents: `None`, booleans, integers
(floats are not used by the code paths under verification), strings, lists
and dicts. -/

inductive Json where
  | null
  | bool (b : Bool)
  | num (n : Int)
  | str (s : String)
  | arr (items : List Json)
  | obj (fields : List (String × Json))

mutual

def jbeq : Json → Json → Bool
  | .null, .null => true
  | .bool a, .bool b => a == b
  | .num a, .num b => a == b
  | .str a, .str b => a == b
  | .arr a, .arr b => jbeqList a b
  | .obj a, .obj b => jbeqFields a b
  | _, _ => false

def jbeqList : List Json → List Json → Bool
  | [], [] => true
  | x :: xs, y :: ys => jbeq x y && jbeqList xs ys
  | _, _ => false

def jbeqFields : List (String × Json) → List (String × Json) → Bool
  | [], [] => true
  | (k, v) :: xs, (k2, v2) :: ys => k == k2 && jbeq v v2 && jbeqFields xs ys
  | _, _ => false

end

/-- Structural induction for the nested inductive `Json`. -/
theorem Json.myrec (motive : Json → Prop)
    (hnull : motive .null) (hbool : ∀ b, motive (.bool b))
    (hnum : ∀ n, motive (.num n)) (hstr : ∀ s, motive (.str s))
    (harr : ∀ l, (∀ x ∈ l, motive x) → motive (.arr l))
    (hobj : ∀ l, (∀ p ∈ l, motive p.2) → motive (.obj l)) :
    ∀ j, motive j := by
  have H : ∀ n j, sizeOf j ≤ n → motive j := by
    intro n
    induction n with
    | zero => intro j hj; cases j <;> simp_arith at hj
    | succ n ih =>
      intro j hj
      cases j with
      | null => exact hnull
      | bool b => exact hbool b
      | num k => exact hnum k
      | str s => exact hstr s
      | arr l =>
        refine harr l (fun x hx => ih x ?_)
        have h1 := List.sizeOf_lt_of_mem hx
        have hs : sizeOf (Json.arr l) = 1 + sizeOf l := by simp
        omega
      | obj l =>
        refine hobj l (fun p hp => ih p.2 ?_)
        have h1 := List.sizeOf_lt_of_mem hp
        have h2 : sizeOf p.2 < sizeOf p := by cases p; simp_arith
        have hs : sizeOf (Json.obj l) = 1 + sizeOf l := by simp
        omega
  exact fun j => H (sizeOf j) j le_rfl

theorem jbeq_iff : ∀ a b : Json, jbeq a b = true ↔ a = b := by
  intro a
  induction a using Json.myrec with
  | hnull => intro b; cases b <;> simp [jbeq]
  | hbool x => intro b; cases b <;> simp [jbeq]
  | hnum x => intro b; cases b <;> simp [jbeq]
  | hstr x => intro b; cases b <;> simp [jbeq]
  | harr l ih =>
    intro b
    cases b <;> simp only [jbeq, Bool.false_eq_true, false_iff] <;>
      try (intro h; cases h)
    case arr l2 =>
      show jbeqList l l2 = true ↔ Json.arr l = Json.arr l2
      simp only [Json.arr.injEq]
      induction l generalizing l2 with
      | nil => cases l2 <;> simp [jbeqList]
      | cons x xs ihl =>
        cases l2 with
        | nil => simp [jbeqList]
        | cons y ys =>
          simp only [jbeqList, Bool.and_eq_true, List.cons.injEq]
          rw [ih x (by simp), ihl (fun z hz => ih z (by simp [hz]))]
  | hobj l ih =>
    intro b
    cases b <;> simp only [jbeq, Bool.false_eq_true, false_iff] <;>
      try (intro h; cases h)
    case obj l2 =>
      show jbeqFields l l2 = true ↔ Json.obj l = Json.obj l2
      simp only [Json.obj.injEq]
      induction l generalizing l2 with
      | nil => cases l2 <;> simp [jbeqFields]
      | cons x xs ihl =>
        cases l2 with
        | nil => simp [jbeqFields]
        | cons y ys =>
          obtain ⟨k, v⟩ := x
          obtain ⟨k2, v2⟩ := y
          simp only [jbeqFields, Bool.and_eq_true, List.cons.injEq, Prod.mk.injEq,
            beq_iff_eq]
          rw [ih (k, v) (by simp), ihl (fun z hz => ih z (by simp [hz]))]

instance : DecidableEq Json := fun a b =>
  if h : jbeq a b = true then isTrue ((jbeq_iff a b).mp h)
  else isFalse (fun e => h ((jbeq_iff a b).mpr e))

/-- Python truthiness of a JSON value (`bool(x)` / `if x:`). -/
def pyTruthy : Json → Bool
  | .null => false
  | .bool b => b
  | .num n => !(n == 0)
  | .str s => !(s == "")
  | .arr items => !items.isEmpty
  | .obj fields => !fields.isEmpty

/-- The fields of a dict value, `[]` for anything else. -/
def jDict : Json → List (String × Json)
  | .obj fields => fields
  | _ => []

/-- The items of a list value, `[]` for anything else. -/
def jList : Json → List Json
  | .arr items => items
  | _ => []

def digitChar (d : Nat) : Char := Char.ofNat (48 + d % 10)

/-- Decimal digits of `n`, most significant first (fuel-driven so that it
reduces in the kernel). -/
def natDigitsAux : Nat → Nat → List Char
  | 0, _ => []
  | fuel + 1, n =>
    if n < 10 then [digitChar n]
    else natDigitsAux fuel (n / 10) ++ [digitChar (n % 10)]

/-- Python `str(n)` for a nonnegative integer. -/
def natRepr (n : Nat) : String := ⟨natDigitsAux (n + 1) n⟩

/-- Python `str(n)` for an integer. -/
def intRepr : Int → String
  | .ofNat n => natRepr n
  | .negSucc n => "-" ++ natRepr (n + 1)

mutual

/-- Python `repr` of a JSON-ish value (string escape sequences omitted:
only its non-emptiness ever matters to the code under verification). -/
def pyRepr : Json → String
  | .null => "None"
  | .bool true => "True"
  | .bool false => "False"
  | .num n => intRepr n
  | .str s => "'" ++ s ++ "'"
  | .arr items => "[" ++ String.intercalate ", " (pyReprList items) ++ "]"
  | .obj fields => "\x7b" ++ String.intercalate ", " (pyReprFields fields) ++ "\x7d"

def pyReprList : List Json → List String
  | [] => []
  | j :: rest => pyRepr j :: pyReprList rest

def pyReprFields : List (String × Json) → List String
  | [] => []
  | (k, v) :: rest => ("'" ++ k ++ "': " ++ pyRepr v) :: pyReprFields rest

end

/-- Python `str(x)`: identity on strings, `repr` otherwise. -/
def pyStr : Json → String
  | .str s => s
  | .null => "None"
  | .bool true => "True"
  | .bool false => "False"
  | .num n => intRepr n
  | .arr items => pyRepr (.arr items)
  | .obj fields => pyRepr (.obj fields)

/-! ### Training-plan normalization (`DEFAULT_TRAINING_PLAN`,
`copy_default_plan`, `normalize_plan`, `ensure_application_fields`) -/

def DEFAULT_TRAINING_PLAN : Json := Json.obj [
  ("title", Json.str "Plan 4 semanas - primera dominada"),
  ("weeks", Json.arr [
    Json.obj [
      ("title", Json.str "Semana 01 - Base y técnica"),
      ("days", Json.arr [
        Json.str "Dead hang 4x20s + retracción escapular 3x10",
        Json.str "Remo invertido 4x8 + hollow hold 3x20s",
        Json.str "Asistidas con banda 5x5 + negativas 3x3 (5s)",
        Json.str "Movilidad de hombro y core 15 min",
        Json.str "Isométricos arriba 4x10s + asistidas 4x6",
        Json.str "Remo anillas 4x8 + curl bíceps 3x12",
        Json.str "Descanso activo, caminar 20-30 min"])],
    Json.obj [
      ("title", Json.str "Semana 02 - Fuerza inicial"),
      ("days", Json.arr [
        Json.str "Dead hang 4x30s + retracción escapular 4x10",
        Json.str "Remo invertido 4x10 + plancha hollow 3x25s",
        Json.str "Asistidas banda ligera 5x4 + negativas 4x3",
        Json.str "Movilidad y activación de escápulas 15 min",
        Json.str "Isométricos mitad recorrido 4x8s + asistidas 4x5",
        Json.str "Remo supino 4x8 + curl bíceps 3x10",
        Json.str "Descanso activo"])],
    Json.obj [
      ("title", Json.str "Semana 03 - Control y potencia"),
      ("days", Json.arr [
        Json.str "Asistidas 6x3 + negativas 4x3 (6s)",
        Json.str "Remo pesado 4x6 + hollow rocks 3x15",
        Json.str "Isométricos arriba 5x8s + clusters 1-1-1",
        Json.str "Movilidad y compensación de hombro",
        Json.str "Asistidas mínima ayuda 5x3 + negativas 3x2",
        Json.str "Remo anillas 4x6 + face pulls 3x12",
        Json.str "Descanso"])],
    Json.obj [
      ("title", Json.str "Semana 04 - Primer intento"),
      ("days", Json.arr [
        Json.str "Test dominada + singles limpios 5x1",
        Json.str "Remo moderado 3x8 + core 3x20s",
        Json.str "Singles con pausa arriba 4x1 + negativas 2x2",
        Json.str "Movilidad y respiración",
        Json.str "Intentos controlados + series técnicas",
        Json.str "Trabajo ligero y estiramientos",
        Json.str "Descanso total"])]])]

/-- `copy_default_plan()`: `json.loads(json.dumps(...))` is a deep copy, the
identity on the stored value. -/
def copy_default_plan : Json := DEFAULT_TRAINING_PLAN

/-- `default["weeks"][index]` as a dict. -/
def default_week_fields (index : Nat) : List (String × Json) :=
  jDict ((jList ((dictGet (jDict copy_default_plan) "weeks").getD Json.null)).getD
    index Json.null)

/-- `default_week["days"]`: the default-plan days used to back-fill week
`index`. -/
def defaultDaysOf (index : Nat) : List Json :=
  jList ((dictGet (default_week_fields index) "days").getD Json.null)

/-- The loop body `text = str(day).strip(); if text: cleaned.append(text)`. -/
def clean_days (days : List Json) : List Json :=
  days.filterMap (fun day =>
    let text := stripChars (pyStr day).data
    if text.isEmpty then none else some (Json.str ⟨text⟩))

/-- Back-fill short day lists from the default week, truncate long ones. -/
def pad_days (index : Nat) (cleaned : List Json) : List Json :=
  let extended :=
    if cleaned.length < 7 then cleaned ++ (defaultDaysOf index).drop cleaned.length
    else cleaned
  if extended.length > 7 then extended.take 7 else extended

/-- `source_week.get("title") or default_week.get("title", f"Semana {i+1}")`. -/
def week_title (index : Nat) (source_week : List (String × Json)) : Json :=
  let t := (dictGet source_week "title").getD Json.null
  if pyTruthy t then t
  else (dictGet (default_week_fields index) "title").getD
    (Json.str ("Semana " ++ natRepr (index + 1)))

/-- One iteration of `for index in range(4)` in `normalize_plan`; `source` is
`weeks[index]` when in range (`Json.null` stands for out of range, and any
non-dict source week is replaced by `{}`). -/
def normalize_week (index : Nat) (source : Json) : Json :=
  let source_week := jDict source
  let days : List Json :=
    match dictGet source_week "days" with
    | some (Json.arr ds) => ds
    | _ => []
  Json.obj [("title", week_title index source_week),
            ("days", Json.arr (pad_days index (clean_days days)))]

/-- `plan.get("title") or default.get("title", "Plan 4 semanas")`. -/
def plan_title (pf : List (String × Json)) : Json :=
  let t := (dictGet pf "title").getD Json.null
  if pyTruthy t then t
  else (dictGet (jDict copy_default_plan) "title").getD (Json.str "Plan 4 semanas")

/-- `normalize_plan(plan)`. -/
def normalize_plan (plan : Json) : Json :=
  match plan with
  | Json.obj pf =>
    let weeks : List Json :=
      match dictGet pf "weeks" with
      | some (Json.arr ws) => ws
      | _ => []
    Json.obj [("title", plan_title pf),
              ("weeks", Json.arr ((List.range 4).map (fun index =>
                normalize_week index (weeks.getD index Json.null))))]
  | _ => copy_default_plan

/-- `if "approved" not in app: app["approved"] = False`. -/
def ensure_approved_present (s : List (String × Json) × Bool) :
    List (String × Json) × Bool :=
  if dictContains s.1 "approved" then s
  else (dictSet s.1 "approved" (Json.bool false), true)

/-- `if not isinstance(app.get("approved"), bool): app["approved"] = bool(...)`. -/
def ensure_approved_bool (s : List (String × Json) × Bool) :
    List (String × Json) × Bool :=
  match (dictGet s.1 "approved").getD Json.null with
  | Json.bool _ => s
  | v => (dictSet s.1 "approved" (Json.bool (pyTruthy v)), true)

/-- `if "goal" not in app: app["goal"] = ""`. -/
def ensure_goal (s : List (String × Json) × Bool) :
    List (String × Json) × Bool :=
  if dictContains s.1 "goal" then s else (dictSet s.1 "goal" (Json.str ""), true)

/-- `if "concerns" not in app: app["concerns"] = ""`. -/
def ensure_concerns (s : List (String × Json) × Bool) :
    List (String × Json) × Bool :=
  if dictContains s.1 "concerns" then s
  else (dictSet s.1 "concerns" (Json.str ""), true)

/-- `normalized_plan = normalize_plan(app.get("plan")); if app.get("plan") !=
normalized_plan: app["plan"] = normalized_plan`. -/
def ensure_plan (s : List (String × Json) × Bool) :
    List (String × Json) × Bool :=
  let np := normalize_plan ((dictGet s.1 "plan").getD Json.null)
  if (dictGet s.1 "plan").getD Json.null = np then s
  else (dictSet s.1 "plan" np, true)

/-- The per-application body of `ensure_application_fields`, threading the
`changed` flag. -/
def ensure_app (app : List (String × Json)) : List (String × Json) × Bool :=
  ensure_plan (ensure_concerns (ensure_goal (ensure_approved_bool
    (ensure_approved_present (app, false)))))

/-- `ensure_application_fields(applications)`: the normalized list together
with the `changed` flag that decides whether the file is rewritten. -/
def ensure_application_fields (applications : List (List (String × Json))) :
    List (List (String × Json)) × Bool :=
  (applications.map (fun app => (ensure_app app).1),
   applications.any (fun app => (ensure_app app).2))

/-! ### Shape predicates for normalized plans -/

/-- A normalized day: a non-empty string. -/
def dayOk : Json → Bool
  | .str s => !(s == "")
  | _ => false

/-- A normalized week: `{"title": _, "days": [7 non-empty strings]}`. -/
def weekOk : Json → Bool
  | .obj [("title", _), ("days", .arr days)] =>
    days.length == 7 && days.all dayOk
  | _ => false

/-- A normalized plan: `{"title": _, "weeks": [4 normalized weeks]}`. -/
def planShape : Json → Bool
  | .obj [("title", _), ("weeks", .arr weeks)] =>
    weeks.length == 4 && weeks.all weekOk
  | _ => false

/-! ### Strip and normalization lemmas -/

theorem dropWhile_idem (p : Char → Bool) (l : List Char) :
    (l.dropWhile p).dropWhile p = l.dropWhile p := by
  induction l with
  | nil => rfl
  | cons c t ih =>
    by_cases h : p c = true
    · simp [List.dropWhile_cons, h, ih]
    · simp [List.dropWhile_cons, h]

theorem dropWhile_shape (p : Char → Bool) (l : List Char) :
    l.dropWhile p = [] ∨
      ∃ c t, l.dropWhile p = c :: t ∧ p c = false := by
  induction l with
  | nil => exact Or.inl rfl
  | cons c t ih =>
    by_cases h : p c = true
    · simpa [List.dropWhile_cons, h] using ih
    · exact Or.inr ⟨c, t, by simp [List.dropWhile_cons, h],
        by simpa using h⟩

theorem stripChars_dropWhile (l : List Char) :
    (stripChars l).dropWhile pyWs = stripChars l := by
  rcases dropWhile_shape pyWs l with h | ⟨c, t, h, hc⟩
  · unfold stripChars
    rw [h]
    rfl
  · unfold stripChars
    rw [h]
    show ((List.reverse (c :: t)).dropWhile pyWs).reverse.dropWhile pyWs = _
    rw [List.reverse_cons, List.dropWhile_append]
    by_cases he : ((t.reverse).dropWhile pyWs).isEmpty = true
    · rw [if_pos he]
      simp [List.dropWhile_cons, hc]
    · rw [if_neg he]
      rw [List.reverse_append]
      simp [List.dropWhile_cons, hc]

theorem stripChars_idem (l : List Char) :
    stripChars (stripChars l) = stripChars l := by
  have h1 : (stripChars l).dropWhile pyWs = stripChars l := stripChars_dropWhile l
  show (((stripChars l).dropWhile pyWs).reverse.dropWhile pyWs).reverse = _
  rw [h1]
  have h2 : (stripChars l).reverse =
      ((l.dropWhile pyWs).reverse).dropWhile pyWs := by
    unfold stripChars
    rw [List.reverse_reverse]
  rw [h2, dropWhile_idem]
  unfold stripChars
  rfl

/-- A value that `clean_days` maps to itself: a non-empty, strip-stable
string. -/
def GoodDay (d : Json) : Prop :=
  ∃ s : String, d = Json.str s ∧ stripChars s.data = s.data ∧ s.data ≠ []

/-- Boolean form of `GoodDay` for `decide`. -/
def goodDayB : Json → Bool
  | .str s => !s.data.isEmpty && (stripChars s.data == s.data)
  | _ => false

theorem goodDayB_iff (d : Json) : goodDayB d = true ↔ GoodDay d := by
  cases d <;> simp [goodDayB, GoodDay]
  case str s =>
    constructor
    · rintro ⟨h1, h2⟩
      exact ⟨h2, by simpa [List.isEmpty_iff] using h1⟩
    · rintro ⟨h1, h2⟩
      exact ⟨by simpa [List.isEmpty_iff] using h2, h1⟩

theorem default_week_facts : ∀ i < 4,
    (defaultDaysOf i).length = 7 ∧
    (defaultDaysOf i).all goodDayB = true ∧
    pyTruthy ((dictGet (default_week_fields i) "title").getD
      (Json.str ("Semana " ++ natRepr (i + 1)))) = true := by decide

theorem default_plan_title_truthy :
    pyTruthy ((dictGet (jDict copy_default_plan) "title").getD
      (Json.str "Plan 4 semanas")) = true := by decide

theorem clean_days_good (days : List Json) : ∀ x ∈ clean_days days, GoodDay x := by
  intro x hx
  simp only [clean_days, List.mem_filterMap] at hx
  obtain ⟨d, _, hf⟩ := hx
  by_cases h : (stripChars (pyStr d).data).isEmpty = true
  · simp [h] at hf
  · rw [if_neg h] at hf
    obtain rfl := Option.some.inj hf
    refine ⟨_, rfl, ?_, ?_⟩
    · show stripChars (stripChars (pyStr d).data) = _
      exact stripChars_idem _
    · show stripChars (pyStr d).data ≠ []
      simpa [List.isEmpty_iff] using h

theorem clean_days_fixed (days : List Json) (h : ∀ x ∈ days, GoodDay x) :
    clean_days days = days := by
  induction days with
  | nil => rfl
  | cons d rest ih =>
    obtain ⟨s, rfl, hstrip, hne⟩ := h d (List.mem_cons_self d rest)
    have hstr : stripChars (pyStr (Json.str s)).data = s.data := hstrip
    have hem : (stripChars (pyStr (Json.str s)).data).isEmpty = false := by
      rw [hstr]
      simpa [List.isEmpty_iff] using hne
    simp only [clean_days, List.filterMap_cons] at *
    rw [hem]
    simp only [Bool.false_eq_true, if_false]
    congr 1
    · rw [hstr]
    · exact ih (fun x hx => h x (by simp [hx]))

theorem pad_days_length (i : Nat) (hi : i < 4) (cleaned : List Json) :
    (pad_days i cleaned).length = 7 := by
  have hdd := (default_week_facts i hi).1
  simp only [pad_days]
  by_cases h : cleaned.length < 7
  · rw [if_pos h]
    have hlen : (cleaned ++ (defaultDaysOf i).drop cleaned.length).length = 7 := by
      rw [List.length_append, List.length_drop, hdd]
      omega
    rw [if_neg (by omega), hlen]
  · rw [if_neg h]
    by_cases h2 : cleaned.length > 7
    · rw [if_pos h2, List.length_take]
      omega
    · rw [if_neg h2]
      omega

theorem pad_days_mem (i : Nat) (cleaned : List Json) :
    ∀ x ∈ pad_days i cleaned, x ∈ cleaned ∨ x ∈ defaultDaysOf i := by
  intro x hx
  simp only [pad_days] at hx
  by_cases h : cleaned.length < 7
  · rw [if_pos h] at hx
    by_cases h2 : (cleaned ++ (defaultDaysOf i).drop cleaned.length).length > 7
    · rw [if_pos h2] at hx
      have := List.take_subset _ _ hx
      rcases List.mem_append.mp this with hm | hm
      · exact Or.inl hm
      · exact Or.inr (List.drop_subset _ _ hm)
    · rw [if_neg h2] at hx
      rcases List.mem_append.mp hx with hm | hm
      · exact Or.inl hm
      · exact Or.inr (List.drop_subset _ _ hm)
  · rw [if_neg h] at hx
    by_cases h2 : cleaned.length > 7
    · rw [if_pos h2] at hx
      exact Or.inl (List.take_subset _ _ hx)
    · rw [if_neg h2] at hx
      exact Or.inl hx

theorem week_title_truthy (i : Nat) (hi : i < 4)
    (sw : List (String × Json)) : pyTruthy (week_title i sw) = true := by
  simp only [week_title]
  by_cases h : pyTruthy ((dictGet sw "title").getD Json.null) = true
  · rw [if_pos h]
    exact h
  · rw [if_neg h]
    exact (default_week_facts i hi).2.2

theorem plan_title_truthy (pf : List (String × Json)) :
    pyTruthy (plan_title pf) = true := by
  simp only [plan_title]
  by_cases h : pyTruthy ((dictGet pf "title").getD Json.null) = true
  · rw [if_pos h]
    exact h
  · rw [if_neg h]
    exact default_plan_title_truthy

theorem dictGet_cons_self {α : Type} (k : String) (v : α)
    (rest : List (String × α)) : dictGet ((k, v) :: rest) k = some v := by
  simp [dictGet, List.find?_cons]

theorem dictGet_cons_ne {α : Type} {k k' : String} (h : (k == k') = false)
    (v : α) (rest : List (String × α)) :
    dictGet ((k, v) :: rest) k' = dictGet rest k' := by
  simp [dictGet, List.find?_cons, h]

theorem normalize_week_eval (i : Nat) (hi : i < 4) (w : Json) :
    ∃ T F, normalize_week i w = Json.obj [("title", T), ("days", Json.arr F)] ∧
      pyTruthy T = true ∧ F.length = 7 ∧ ∀ x ∈ F, GoodDay x := by
  refine ⟨_, _, rfl, week_title_truthy i hi _, pad_days_length i hi _, ?_⟩
  intro x hx
  rcases pad_days_mem i _ x hx with h | h
  · exact clean_days_good _ x h
  · have hall := (default_week_facts i hi).2.1
    rw [List.all_eq_true] at hall
    exact (goodDayB_iff x).mp (hall x h)

theorem normalize_week_idem (i : Nat) (hi : i < 4) (w : Json) :
    normalize_week i (normalize_week i w) = normalize_week i w := by
  obtain ⟨T, F, heq, hT, hlen, hgood⟩ := normalize_week_eval i hi w
  rw [heq]
  have hdays : (match dictGet [("title", T), ("days", Json.arr F)] "days" with
      | some (Json.arr ds) => ds
      | _ => ([] : List Json)) = F := by
    rw [dictGet_cons_ne (by decide), dictGet_cons_self]
  have htitle : week_title i [("title", T), ("days", Json.arr F)] = T := by
    simp only [week_title, dictGet_cons_self, Option.getD_some]
    rw [if_pos hT]
  have hclean : clean_days F = F := clean_days_fixed F hgood
  have hpad : pad_days i F = F := by
    have h1 : ¬ F.length < 7 := by omega
    have h2 : ¬ F.length > 7 := by omega
    simp only [pad_days]
    rw [if_neg h1, if_neg h2]
  simp only [normalize_week, jDict]
  rw [hdays, htitle, hclean, hpad]

theorem dayOk_of_good {x : Json} (h : GoodDay x) : dayOk x = true := by
  obtain ⟨s, rfl, _, hne⟩ := h
  have : ¬ s = "" := by
    intro e
    subst e
    exact hne rfl
  simp [dayOk, this]

theorem weekOk_normalize_week (i : Nat) (hi : i < 4) (w : Json) :
    weekOk (normalize_week i w) = true := by
  obtain ⟨T, F, heq, _, hlen, hgood⟩ := normalize_week_eval i hi w
  rw [heq]
  show (F.length == 7 && F.all dayOk) = true
  rw [Bool.and_eq_true, List.all_eq_true]
  exact ⟨by simp [hlen], fun x hx => dayOk_of_good (hgood x hx)⟩

theorem planShape_obj (t : Json) (w : List Json) :
    planShape (Json.obj [("title", t), ("weeks", Json.arr w)]) =
      (w.length == 4 && w.all weekOk) := rfl

/-- Evaluation of `normalize_plan` on a dict input. -/
theorem normalize_plan_obj (pf : List (String × Json)) :
    normalize_plan (Json.obj pf) =
      Json.obj [("title", plan_title pf),
        ("weeks", Json.arr ((List.range 4).map (fun index =>
          normalize_week index ((match dictGet pf "weeks" with
            | some (Json.arr ws) => ws
            | _ => ([] : List Json)).getD index Json.null))))] := rfl

theorem weeks_of_normed (T : Json) (W : List Json) :
    (match dictGet [("title", T), ("weeks", Json.arr W)] "weeks" with
      | some (Json.arr ws) => ws
      | _ => ([] : List Json)) = W := by
  rw [dictGet_cons_ne (by decide), dictGet_cons_self]

theorem plan_title_normed (T : Json) (hT : pyTruthy T = true)
    (rest : List (String × Json)) :
    plan_title (("title", T) :: rest) = T := by
  simp only [plan_title, dictGet_cons_self, Option.getD_some]
  rw [if_pos hT]

theorem normalize_plan_shape (p : Json) : planShape (normalize_plan p) = true := by
  cases p with
  | obj pf =>
    rw [normalize_plan_obj, planShape_obj, Bool.and_eq_true, List.all_eq_true]
    constructor
    · simp
    · intro x hx
      obtain ⟨i, hi, rfl⟩ := List.mem_map.mp hx
      exact weekOk_normalize_week i (List.mem_range.mp hi) _
  | null => decide
  | bool b => cases b <;> decide
  | num n => show planShape copy_default_plan = true; decide
  | str s => show planShape copy_default_plan = true; decide
  | arr l => show planShape copy_default_plan = true; decide

theorem normalize_plan_default_fixed :
    normalize_plan copy_default_plan = copy_default_plan := by decide

theorem normalize_plan_idem (p : Json) :
    normalize_plan (normalize_plan p) = normalize_plan p := by
  have range4 : List.range 4 = [0, 1, 2, 3] := rfl
  cases p with
  | obj pf =>
    rw [normalize_plan_obj pf]
    set W := (List.range 4).map (fun index =>
      normalize_week index ((match dictGet pf "weeks" with
        | some (Json.arr ws) => ws
        | _ => ([] : List Json)).getD index Json.null)) with hWdef
    rw [normalize_plan_obj, weeks_of_normed,
      plan_title_normed _ (plan_title_truthy pf)]
    have hmap : (List.range 4).map (fun index =>
        normalize_week index (W.getD index Json.null)) = W := by
      rw [hWdef, range4]
      simp only [List.map_cons, List.map_nil, List.getD_cons_zero,
        List.getD_cons_succ]
      rw [normalize_week_idem 0 (by omega), normalize_week_idem 1 (by omega),
        normalize_week_idem 2 (by omega), normalize_week_idem 3 (by omega)]
    rw [hmap]
  | null => exact normalize_plan_default_fixed
  | bool b => exact normalize_plan_default_fixed
  | num n => exact normalize_plan_default_fixed
  | str s => exact normalize_plan_default_fixed
  | arr l => exact normalize_plan_default_fixed

theorem dictContains_eq_isSome {α : Type} (d : List (String × α)) (k : String) :
    dictContains d k = (dictGet d k).isSome := by
  induction d with
  | nil => rfl
  | cons p rest ih =>
    by_cases h : (p.1 == k) = true
    · simp [dictContains_cons, h, dictGet, List.find?_cons]
    · have h' : (p.1 == k) = false := by simpa using h
      simp only [dictContains_cons, h', Bool.false_or, dictGet, List.find?_cons,
        cond_false]
      simpa [dictGet] using ih

theorem dictGet_dictSet_self {α : Type} (d : List (String × α)) (k : String)
    (v : α) : dictGet (dictSet d k v) k = some v := by
  rw [dictGet_dictSet, if_pos rfl]

theorem dictGet_dictSet_ne {α : Type} (d : List (String × α)) {k k' : String}
    (v : α) (h : k' ≠ k) : dictGet (dictSet d k v) k' = dictGet d k' := by
  rw [dictGet_dictSet, if_neg h]

/-! ### `ensure_application_fields` invariants -/

theorem ensure_approved_present_preserve (s : List (String × Json) × Bool)
    (k : String) (hk : k ≠ "approved") :
    dictGet (ensure_approved_present s).1 k = dictGet s.1 k := by
  simp only [ensure_approved_present]
  split
  · rfl
  · exact dictGet_dictSet_ne _ _ hk

theorem ensure_approved_bool_preserve (s : List (String × Json) × Bool)
    (k : String) (hk : k ≠ "approved") :
    dictGet (ensure_approved_bool s).1 k = dictGet s.1 k := by
  simp only [ensure_approved_bool]
  split
  · rfl
  · exact dictGet_dictSet_ne _ _ hk

theorem ensure_goal_preserve (s : List (String × Json) × Bool)
    (k : String) (hk : k ≠ "goal") :
    dictGet (ensure_goal s).1 k = dictGet s.1 k := by
  simp only [ensure_goal]
  split
  · rfl
  · exact dictGet_dictSet_ne _ _ hk

theorem ensure_concerns_preserve (s : List (String × Json) × Bool)
    (k : String) (hk : k ≠ "concerns") :
    dictGet (ensure_concerns s).1 k = dictGet s.1 k := by
  simp only [ensure_concerns]
  split
  · rfl
  · exact dictGet_dictSet_ne _ _ hk

theorem ensure_plan_preserve (s : List (String × Json) × Bool)
    (k : String) (hk : k ≠ "plan") :
    dictGet (ensure_plan s).1 k = dictGet s.1 k := by
  simp only [ensure_plan]
  split
  · rfl
  · exact dictGet_dictSet_ne _ _ hk

theorem ensure_approved_bool_val (s : List (String × Json) × Bool) :
    ∃ b, dictGet (ensure_approved_bool s).1 "approved" = some (Json.bool b) := by
  simp only [ensure_approved_bool]
  split
  · next b heq =>
    refine ⟨b, ?_⟩
    cases hdg : dictGet s.1 "approved" with
    | none =>
      rw [hdg] at heq
      simp at heq
    | some v =>
      rw [hdg] at heq
      simp only [Option.getD_some] at heq
      subst heq
      rfl
  · exact ⟨_, dictGet_dictSet_self _ _ _⟩

theorem ensure_goal_has (s : List (String × Json) × Bool) :
    (dictGet (ensure_goal s).1 "goal").isSome = true := by
  simp only [ensure_goal]
  split
  · next h => rwa [dictContains_eq_isSome] at h
  · rw [dictGet_dictSet_self]
    rfl

theorem ensure_concerns_has (s : List (String × Json) × Bool) :
    (dictGet (ensure_concerns s).1 "concerns").isSome = true := by
  simp only [ensure_concerns]
  split
  · next h => rwa [dictContains_eq_isSome] at h
  · rw [dictGet_dictSet_self]
    rfl

theorem ensure_plan_fix (s : List (String × Json) × Bool) :
    ∃ q, dictGet (ensure_plan s).1 "plan" = some q ∧ normalize_plan q = q ∧
      planShape q = true := by
  simp only [ensure_plan]
  split
  · next h =>
    cases hd : dictGet s.1 "plan" with
    | none =>
      rw [hd] at h
      exact absurd h (by decide)
    | some q =>
      rw [hd] at h
      simp only [Option.getD_some] at h
      refine ⟨q, rfl, h.symm, ?_⟩
      rw [h]
      exact normalize_plan_shape q
  · next h =>
    refine ⟨_, dictGet_dictSet_self _ _ _, normalize_plan_idem _,
      normalize_plan_shape _⟩

theorem ensure_app_inv (app : List (String × Json)) :
    (∃ b, dictGet (ensure_app app).1 "approved" = some (Json.bool b)) ∧
    (dictGet (ensure_app app).1 "goal").isSome = true ∧
    (dictGet (ensure_app app).1 "concerns").isSome = true ∧
    (∃ q, dictGet (ensure_app app).1 "plan" = some q ∧ normalize_plan q = q ∧
      planShape q = true) := by
  refine ⟨?_, ?_, ?_, ?_⟩
  · obtain ⟨b, hb⟩ := ensure_approved_bool_val (ensure_approved_present (app, false))
    refine ⟨b, ?_⟩
    simp only [ensure_app]
    rw [ensure_plan_preserve _ _ (by decide),
      ensure_concerns_preserve _ _ (by decide),
      ensure_goal_preserve _ _ (by decide)]
    exact hb
  · simp only [ensure_app]
    rw [ensure_plan_preserve _ _ (by decide),
      ensure_concerns_preserve _ _ (by decide)]
    exact ensure_goal_has _
  · simp only [ensure_app]
    rw [ensure_plan_preserve _ _ (by decide)]
    exact ensure_concerns_has _
  · simp only [ensure_app]
    exact ensure_plan_fix _

theorem ensure_app_fixed (a : List (String × Json))
    (happ : ∃ b, dictGet a "approved" = some (Json.bool b))
    (hg : (dictGet a "goal").isSome = true)
    (hc : (dictGet a "concerns").isSome = true)
    (hp : ∃ q, dictGet a "plan" = some q ∧ normalize_plan q = q) :
    ensure_app a = (a, false) := by
  obtain ⟨b, hb⟩ := happ
  obtain ⟨q, hq, hfix⟩ := hp
  have h1 : ensure_approved_present (a, false) = (a, false) := by
    simp only [ensure_approved_present]
    rw [if_pos (by rw [dictContains_eq_isSome, hb]; rfl)]
  have h2 : ensure_approved_bool (a, false) = (a, false) := by
    simp only [ensure_approved_bool, hb]
    rfl
  have h3 : ensure_goal (a, false) = (a, false) := by
    simp only [ensure_goal]
    rw [if_pos (by rw [dictContains_eq_isSome]; exact hg)]
  have h4 : ensure_concerns (a, false) = (a, false) := by
    simp only [ensure_concerns]
    rw [if_pos (by rw [dictContains_eq_isSome]; exact hc)]
  have h5 : ensure_plan (a, false) = (a, false) := by
    simp only [ensure_plan, hq]
    rw [if_pos (by simp only [Option.getD_some]; exact hfix.symm)]
  simp only [ensure_app, h1, h2, h3, h4, h5]

theorem ensure_app_idem (app : List (String × Json)) :
    ensure_app (ensure_app app).1 = ((ensure_app app).1, false) := by
  obtain ⟨happ, hg, hc, q, hq, hfix, _⟩ := ensure_app_inv app
  exact ensure_app_fixed _ happ hg hc ⟨q, hq, hfix⟩

/-- **C4** Plan normalization shape and idempotence: `normalize_plan` always
yields 4 weeks of exactly 7 non-empty day strings and is idempotent; the
"ensure fields" pass gives every stored application such a plan, and
applying it twice changes nothing further (the second pass reports
`changed = false`). -/
theorem C4_plan_normalization (p : Json) (apps : List (List (String × Json))) :
    planShape (normalize_plan p) = true ∧
    normalize_plan (normalize_plan p) = normalize_plan p ∧
    (∀ app ∈ (ensure_application_fields apps).1,
      ∃ q, dictGet app "plan" = some q ∧ planShape q = true) ∧
    ensure_application_fields (ensure_application_fields apps).1 =
      ((ensure_application_fields apps).1, false) := by
  refine ⟨normalize_plan_shape p, normalize_plan_idem p, ?_, ?_⟩
  · intro app hm
    simp only [ensure_application_fields, List.mem_map] at hm
    obtain ⟨a, _, rfl⟩ := hm
    obtain ⟨_, _, _, q, hq, _, hs⟩ := ensure_app_inv a
    exact ⟨q, hq, hs⟩
  · simp only [ensure_application_fields, List.map_map, List.any_map,
      Prod.mk.injEq]
    constructor
    · apply List.map_congr_left
      intro a _
      show (ensure_app (ensure_app a).1).1 = (ensure_app a).1
      rw [ensure_app_idem]
    · rw [List.any_eq_false]
      intro a _
      show ¬ ((ensure_app (ensure_app a).1).2 = true)
      rw [ensure_app_idem]
      simp

/-! ### Applications and the apply / login handlers -/

/-- One record of `applications.json` in the shape `handle_apply` writes. -/
structure Application where
  id : String
  username : String
  email : String
  skill : String
  level : String
  goal : String
  concerns : String
  salt : String
  hash : String
  approved : Bool
  plan : Json
  created_at : Nat
deriving DecidableEq

/-- The `smtp` block of `settings.json`. -/
structure SmtpSettings where
  enabled : Bool
  host : String
  port : Nat
  username : String
  password : String
  from_name : String
  admin_email : String
  use_tls : Bool
deriving DecidableEq

/-- The `admin` block of `settings.json`. -/
structure AdminCred where
  username : String
  salt : String
  hash : String
deriving DecidableEq

/-- UTF-8 encoding of one character (the `% 8` / `% 64` masks are no-ops on
valid code points and only make the byte bounds evident). -/
def utf8Char (c : Char) : Bytes :=
  let n := c.toNat
  if n < 128 then [⟨n % 256, by omega⟩]
  else if n < 2048 then
    [⟨192 + n / 64 % 32, by omega⟩, ⟨128 + n % 64, by omega⟩]
  else if n < 65536 then
    [⟨224 + n / 4096 % 16, by omega⟩, ⟨128 + n / 64 % 64, by omega⟩,
     ⟨128 + n % 64, by omega⟩]
  else
    [⟨240 + n / 262144 % 8, by omega⟩, ⟨128 + n / 4096 % 64, by omega⟩,
     ⟨128 + n / 64 % 64, by omega⟩, ⟨128 + n % 64, by omega⟩]

/-- Python `s.encode("utf-8")`. -/
def strBytes (s : String) : Bytes := (s.data.map utf8Char).flatten

/-- Observable side effects of a request handler, in program order. -/
inductive Effect where
  | saveApplications (apps : List Application)
  | smtpAttempt
  | redirect (location : String)
deriving DecidableEq

/-- `notify_application(application, smtp_settings)`: the `(ok, reason)`
result together with the effect trace. `sendFails` injects whether an SMTP
call raises. -/
def notify_application (smtp : SmtpSettings) (sendFails : Bool) :
    (Bool × String) × List Effect :=
  if !smtp.enabled then ((false, "smtp_disabled"), [])
  else if smtp.host == "" || smtp.username == "" || smtp.password == "" then
    ((false, "smtp_incomplete"), [])
  else
    let admin_email := if smtp.admin_email == "" then smtp.username
                       else smtp.admin_email
    if admin_email == "" then ((false, "smtp_incomplete"), [])
    else if sendFails then ((false, "smtp_failed"), [Effect.smtpAttempt])
    else ((true, "ok"), [Effect.smtpAttempt])

/-- `AuraHandler.handle_apply`: its effect trace. The loaded application
list, the generated id, the salt/hash pair produced by `hash_password`, the
clock and the SMTP outcome are injected. -/
def handle_apply (usernameRaw passwordRaw emailRaw skillRaw levelRaw goalRaw
    concernsRaw : String) (applications : List Application)
    (smtp : SmtpSettings) (appId salt_b64 pw_hash : String) (now : Nat)
    (sendFails : Bool) : List Effect :=
  let username := pyStrip usernameRaw
  let password := pyStrip passwordRaw
  let email := pyStrip emailRaw
  let skill := pyStrip skillRaw
  let level := pyStrip levelRaw
  let goal := pyStrip goalRaw
  let concerns := pyStrip concernsRaw
  if username == "" || password == "" || email == "" || skill == "" || goal == ""
  then [Effect.redirect "/?status=error&message=Faltan campos obligatorios"]
  else
    match applications.findSome? (fun app =>
      if pyLower app.username == pyLower username then
        some "/?status=error&message=Usuario ya registrado"
      else if pyLower app.email == pyLower email then
        some "/?status=error&message=Email ya registrado"
      else none) with
    | some loc => [Effect.redirect loc]
    | none =>
      let application : Application :=
        ⟨appId, username, email, skill, level, goal, concerns, salt_b64,
         pw_hash, false, copy_default_plan, now⟩
      let result := notify_application smtp sendFails
      Effect.saveApplications (applications ++ [application]) ::
        result.2 ++
        [Effect.redirect (
          if result.1.1 then "/?status=ok"
          else if result.1.2 == "smtp_disabled" || result.1.2 == "smtp_incomplete"
          then "/?status=smtp"
          else "/?status=error&message=Error enviando email")]

/-- `find_application(applications, username)`: case-insensitive linear
scan. -/
def find_application (applications : List Application) (username : String) :
    Option Application :=
  let target := pyLower (pyStrip username)
  applications.find? (fun app => pyLower (pyStrip app.username) == target)

/-- The observable response of the login handler. -/
inductive LoginResponse where
  | redirect (location : String)
  | loginOk (cookieName : String) (token : String) (location : String)
deriving DecidableEq

/-- `AuraHandler.handle_login`: the response for a member/admin login
attempt. The session token drawn on success is injected. -/
def handle_login (pbkdf2 : Bytes → Bytes → Bytes)
    (usernameRaw passwordRaw : String) (admin : AdminCred)
    (applications : List Application) (token : String) : LoginResponse :=
  let username := pyStrip usernameRaw
  let password := pyStrip passwordRaw
  if username == "" || password == "" then
    .redirect "/?access=user_missing#acceso"
  else if username == admin.username then
    if verify_password pbkdf2 (strBytes password) admin.salt admin.hash then
      .loginOk ADMIN_SESSION_COOKIE token "/?access=admin_ok#acceso"
    else .redirect "/?access=admin_error#acceso"
  else
    match find_application applications username with
    | none => .redirect "/?access=user_error#acceso"
    | some app =>
      if !verify_password pbkdf2 (strBytes password) app.salt app.hash then
        .redirect "/?access=user_error#acceso"
      else if !app.approved then
        .redirect "/?access=user_pending#acceso"
      else .loginOk USER_SESSION_COOKIE token "/?access=user_ok#acceso"

/-! ### Claims C7 and C8 -/

/-- **C7** For every valid new-application request, the application record is
appended and saved *before* any SMTP activity, the notification effects
carry no further save, and a failed notification yields a distinct non-ok
status while the persisted record stands. -/
theorem C7_apply_persists_before_notify
    (usernameRaw passwordRaw emailRaw skillRaw levelRaw goalRaw
      concernsRaw : String) (applications : List Application)
    (smtp : SmtpSettings) (appId salt_b64 pw_hash : String) (now : Nat)
    (sendFails : Bool)
    (hu : pyStrip usernameRaw ≠ "") (hp : pyStrip passwordRaw ≠ "")
    (he : pyStrip emailRaw ≠ "") (hs : pyStrip skillRaw ≠ "")
    (hg : pyStrip goalRaw ≠ "")
    (hnodup : ∀ app ∈ applications,
      pyLower app.username ≠ pyLower (pyStrip usernameRaw) ∧
      pyLower app.email ≠ pyLower (pyStrip emailRaw)) :
    ∃ loc,
      handle_apply usernameRaw passwordRaw emailRaw skillRaw levelRaw goalRaw
          concernsRaw applications smtp appId salt_b64 pw_hash now sendFails =
        Effect.saveApplications (applications ++
          [⟨appId, pyStrip usernameRaw, pyStrip emailRaw, pyStrip skillRaw,
            pyStrip levelRaw, pyStrip goalRaw, pyStrip concernsRaw, salt_b64,
            pw_hash, false, copy_default_plan, now⟩]) ::
          (notify_application smtp sendFails).2 ++ [Effect.redirect loc] ∧
      (∀ e ∈ (notify_application smtp sendFails).2, e = Effect.smtpAttempt) ∧
      ((notify_application smtp sendFails).1.1 = false →
        loc ≠ "/?status=ok" ∧
        (loc = "/?status=smtp" ∨
         loc = "/?status=error&message=Error enviando email")) := by
  have hcond : (pyStrip usernameRaw == "" || pyStrip passwordRaw == "" ||
      pyStrip emailRaw == "" || pyStrip skillRaw == "" ||
      pyStrip goalRaw == "") = false := by
    simp only [Bool.or_eq_false_iff, beq_eq_false_iff_ne]
    exact ⟨⟨⟨⟨hu, hp⟩, he⟩, hs⟩, hg⟩
  have hfind : applications.findSome? (fun app =>
      if pyLower app.username == pyLower (pyStrip usernameRaw) then
        some "/?status=error&message=Usuario ya registrado"
      else if pyLower app.email == pyLower (pyStrip emailRaw) then
        some "/?status=error&message=Email ya registrado"
      else none) = none := by
    rw [List.findSome?_eq_none_iff]
    intro app hm
    rw [if_neg (by simp [beq_iff_eq]; exact fun e => (hnodup app hm).1 e),
      if_neg (by simp [beq_iff_eq]; exact fun e => (hnodup app hm).2 e)]
  refine ⟨if (notify_application smtp sendFails).1.1 then "/?status=ok"
    else if (notify_application smtp sendFails).1.2 == "smtp_disabled" ||
      (notify_application smtp sendFails).1.2 == "smtp_incomplete"
    then "/?status=smtp"
    else "/?status=error&message=Error enviando email", ?_, ?_, ?_⟩
  · simp only [handle_apply, hcond, Bool.false_eq_true, if_false, hfind]
  · intro e hm
    simp only [notify_application] at hm
    repeat' split at hm
    all_goals simpa using hm
  · intro hfail
    rw [hfail]
    simp only [Bool.false_eq_true, if_false]
    by_cases h : ((notify_application smtp sendFails).1.2 == "smtp_disabled" ||
        (notify_application smtp sendFails).1.2 == "smtp_incomplete") = true
    · rw [if_pos h]
      exact ⟨by decide, Or.inl rfl⟩
    · rw [if_neg h]
      exact ⟨by decide, Or.inr rfl⟩

theorem C7_apply_persists_before_notify_witness :
    (pyStrip "ana" ≠ "" ∧ pyStrip "pw" ≠ "" ∧ pyStrip "a@b.com" ≠ "" ∧
      pyStrip "intermedio" ≠ "" ∧ pyStrip "dominada" ≠ "") ∧
    ∃ loc,
      handle_apply "ana" "pw" "a@b.com" "intermedio" "" "dominada" ""
          [] ⟨false, "", 587, "", "", "Aura Calistenia", "", true⟩
          "id1" "c2FsdA==" "aGFzaA==" 1700000000 false =
        Effect.saveApplications ([] ++
          [⟨"id1", pyStrip "ana", pyStrip "a@b.com", pyStrip "intermedio",
            pyStrip "", pyStrip "dominada", pyStrip "", "c2FsdA==",
            "aGFzaA==", false, copy_default_plan, 1700000000⟩]) ::
          (notify_application ⟨false, "", 587, "", "", "Aura Calistenia", "",
            true⟩ false).2 ++ [Effect.redirect loc] ∧
      (∀ e ∈ (notify_application ⟨false, "", 587, "", "", "Aura Calistenia", "",
        true⟩ false).2, e = Effect.smtpAttempt) ∧
      ((notify_application ⟨false, "", 587, "", "", "Aura Calistenia", "",
          true⟩ false).1.1 = false →
        loc ≠ "/?status=ok" ∧
        (loc = "/?status=smtp" ∨
         loc = "/?status=error&message=Error enviando email")) :=
  ⟨⟨by decide, by decide, by decide, by decide, by decide⟩,
   C7_apply_persists_before_notify "ana" "pw" "a@b.com" "intermedio" ""
     "dominada" "" [] ⟨false, "", 587, "", "", "Aura Calistenia", "", true⟩
     "id1" "c2FsdA==" "aGFzaA==" 1700000000 false (by decide) (by decide)
     (by decide) (by decide) (by decide) (by simp)⟩

/-- **C8** Credential-mismatch indistinguishability: a member login whose
username matches no application and one whose username matches but whose
password fails verification produce the same observable response, the
generic `/?access=user_error#acceso` redirect. -/
theorem C8_login_indistinguishable (pbkdf2 : Bytes → Bytes → Bytes)
    (u1 p1 u2 p2 : String) (admin : AdminCred)
    (applications : List Application) (token : String)
    (h1u : pyStrip u1 ≠ "") (h1p : pyStrip p1 ≠ "")
    (h2u : pyStrip u2 ≠ "") (h2p : pyStrip p2 ≠ "")
    (h1a : pyStrip u1 ≠ admin.username) (h2a : pyStrip u2 ≠ admin.username)
    (hnone : find_application applications (pyStrip u1) = none)
    (app : Application)
    (hsome : find_application applications (pyStrip u2) = some app)
    (hbad : verify_password pbkdf2 (strBytes (pyStrip p2)) app.salt app.hash
      = false) :
    handle_login pbkdf2 u1 p1 admin applications token =
      LoginResponse.redirect "/?access=user_error#acceso" ∧
    handle_login pbkdf2 u2 p2 admin applications token =
      LoginResponse.redirect "/?access=user_error#acceso" := by
  constructor
  · have hc : (pyStrip u1 == "" || pyStrip p1 == "") = false := by
      simp only [Bool.or_eq_false_iff, beq_eq_false_iff_ne]
      exact ⟨h1u, h1p⟩
    have ha : (pyStrip u1 == admin.username) = false := by
      rwa [beq_eq_false_iff_ne]
    simp only [handle_login, hc, Bool.false_eq_true, if_false, ha, hnone]
  · have hc : (pyStrip u2 == "" || pyStrip p2 == "") = false := by
      simp only [Bool.or_eq_false_iff, beq_eq_false_iff_ne]
      exact ⟨h2u, h2p⟩
    have ha : (pyStrip u2 == admin.username) = false := by
      rwa [beq_eq_false_iff_ne]
    simp only [handle_login, hc, Bool.false_eq_true, if_false, ha, hsome, hbad,
      Bool.not_false, if_true]

theorem C8_login_indistinguishable_witness :
    (find_application [⟨"i", "ana", "a@b", "s", "", "g", "", "", "", false,
        Json.null, 0⟩] (pyStrip "ghost") = none ∧
     find_application [⟨"i", "ana", "a@b", "s", "", "g", "", "", "", false,
        Json.null, 0⟩] (pyStrip "ana") =
       some ⟨"i", "ana", "a@b", "s", "", "g", "", "", "", false, Json.null, 0⟩ ∧
     verify_password (fun _ _ => [0]) (strBytes (pyStrip "bad")) "" "" = false) ∧
    handle_login (fun _ _ => [0]) "ghost" "x" ⟨"admin", "", ""⟩
      [⟨"i", "ana", "a@b", "s", "", "g", "", "", "", false, Json.null, 0⟩] "t" =
      LoginResponse.redirect "/?access=user_error#acceso" ∧
    handle_login (fun _ _ => [0]) "ana" "bad" ⟨"admin", "", ""⟩
      [⟨"i", "ana", "a@b", "s", "", "g", "", "", "", false, Json.null, 0⟩] "t" =
      LoginResponse.redirect "/?access=user_error#acceso" :=
  ⟨⟨by decide, by decide, by decide⟩,
   C8_login_indistinguishable (fun _ _ => [0]) "ghost" "x" "ana" "bad"
     ⟨"admin", "", ""⟩
     [⟨"i", "ana", "a@b", "s", "", "g", "", "", "", false, Json.null, 0⟩] "t"
     (by decide) (by decide) (by decide) (by decide) (by decide) (by decide)
     (by decide)
     ⟨"i", "ana", "a@b", "s", "", "g", "", "", "", false, Json.null, 0⟩
     (by decide) (by decide)⟩

/-! ### The JSON document store: `json.dump(data, handle, indent=2,
ensure_ascii=True)` and `json.loads` (integer numbers only: the code paths
under verification store no floats) -/

def hexDigit (d : Nat) : Char :=
  if d < 10 then Char.ofNat (48 + d) else Char.ofNat (87 + d)

def hex4 (n : Nat) : List Char :=
  [hexDigit (n / 4096 % 16), hexDigit (n / 256 % 16), hexDigit (n / 16 % 16),
   hexDigit (n % 16)]

/-- `ensure_ascii` escaping of one character: short escapes, printable ASCII
verbatim, `\uXXXX` otherwise (a surrogate pair above the BMP). -/
def escapeChar (c : Char) : List Char :=
  if c = '"' then ['\\', '"']
  else if c = '\\' then ['\\', '\\']
  else if c = '\n' then ['\\', 'n']
  else if c = '\t' then ['\\', 't']
  else if c = '\x0d' then ['\\', 'r']
  else if c = '\x08' then ['\\', 'b']
  else if c = '\x0c' then ['\\', 'f']
  else if 32 ≤ c.toNat ∧ c.toNat ≤ 126 then [c]
  else if c.toNat < 65536 then '\\' :: 'u' :: hex4 c.toNat
  else
    '\\' :: 'u' :: (hex4 (55296 + (c.toNat - 65536) / 1024 % 1024) ++
      '\\' :: 'u' :: hex4 (56320 + (c.toNat - 65536) % 1024))

def escapeStr (l : List Char) : List Char := (l.map escapeChar).flatten

def spacesN (n : Nat) : List Char := List.replicate n ' '

mutual

/-- `json.dumps(j, indent=2, ensure_ascii=True)` at nesting `level`. -/
def dumpJson : Json → Nat → List Char
  | .null, _ => "null".data
  | .bool true, _ => "true".data
  | .bool false, _ => "false".data
  | .num n, _ => (intRepr n).data
  | .str s, _ => '"' :: (escapeStr s.data ++ ['"'])
  | .arr items, level => dumpArr items level
  | .obj fields, level => dumpObjFields fields level

def dumpArr : List Json → Nat → List Char
  | [], _ => "[]".data
  | x :: xs, level =>
    '[' :: '\n' :: (spacesN (2 * (level + 1)) ++ dumpJson x (level + 1) ++
      dumpItems xs (level + 1) ++ '\n' :: (spacesN (2 * level) ++ [']']))

def dumpItems : List Json → Nat → List Char
  | [], _ => []
  | x :: xs, level =>
    ',' :: '\n' :: (spacesN (2 * level) ++ dumpJson x level ++
      dumpItems xs level)

def dumpObjFields : List (String × Json) → Nat → List Char
  | [], _ => ['\x7b', '\x7d']
  | (k, v) :: fs, level =>
    '\x7b' :: '\n' :: (spacesN (2 * (level + 1)) ++
      ('"' :: (escapeStr k.data ++ '"' :: ':' :: ' ' :: dumpJson v (level + 1))) ++
      dumpFields fs (level + 1) ++ '\n' :: (spacesN (2 * level) ++ ['\x7d']))

def dumpFields : List (String × Json) → Nat → List Char
  | [], _ => []
  | (k, v) :: fs, level =>
    ',' :: '\n' :: (spacesN (2 * level) ++
      ('"' :: (escapeStr k.data ++ '"' :: ':' :: ' ' :: dumpJson v level)) ++
      dumpFields fs level)

end

def dumps (j : Json) : String := ⟨dumpJson j 0⟩

def jsonWs (c : Char) : Bool :=
  c.toNat = 32 || c.toNat = 9 || c.toNat = 10 || c.toNat = 13

def skipWs (l : List Char) : List Char := l.dropWhile jsonWs

def isDigitChar (c : Char) : Bool := 48 ≤ c.toNat && c.toNat ≤ 57

def digitsToNat (l : List Char) : Nat :=
  l.foldl (fun a c => a * 10 + (c.toNat - 48)) 0

def hexVal (c : Char) : Option Nat :=
  let n := c.toNat
  if 48 ≤ n ∧ n ≤ 57 then some (n - 48)
  else if 97 ≤ n ∧ n ≤ 102 then some (n - 87)
  else if 65 ≤ n ∧ n ≤ 70 then some (n - 55)
  else none

def hexVal4 (a b c d : Char) : Option Nat := do
  let va ← hexVal a
  let vb ← hexVal b
  let vc ← hexVal c
  let vd ← hexVal d
  some (va * 4096 + vb * 256 + vc * 16 + vd)

def escDecode (e : Char) : Option Char :=
  if e = '"' then some '"'
  else if e = '\\' then some '\\'
  else if e = '/' then some '/'
  else if e = 'b' then some '\x08'
  else if e = 'f' then some '\x0c'
  else if e = 'n' then some '\n'
  else if e = 'r' then some '\x0d'
  else if e = 't' then some '\t'
  else none

/-- The body of a JSON string literal, after the opening quote: decode up to
the closing quote (surrogate pairs are combined; a lone surrogate escape is
rejected, as Lean characters are scalar values). -/
def parseStringBody : Nat → List Char → Option (List Char × List Char)
  | 0, _ => none
  | fuel + 1, cs =>
    match cs with
    | [] => none
    | '"' :: rest => some ([], rest)
    | '\\' :: rest =>
      match rest with
      | 'u' :: a :: b :: c :: d :: rest2 =>
        match hexVal4 a b c d with
        | none => none
        | some n =>
          if 55296 ≤ n ∧ n ≤ 56319 then
            match rest2 with
            | '\\' :: 'u' :: a2 :: b2 :: c2 :: d2 :: rest3 =>
              match hexVal4 a2 b2 c2 d2 with
              | none => none
              | some n2 =>
                if 56320 ≤ n2 ∧ n2 ≤ 57343 then
                  (parseStringBody fuel rest3).map (fun p =>
                    (Char.ofNat (65536 + (n - 55296) * 1024 + (n2 - 56320)) ::
                      p.1, p.2))
                else none
            | _ => none
          else if 56320 ≤ n ∧ n ≤ 57343 then none
          else (parseStringBody fuel rest2).map (fun p => (Char.ofNat n :: p.1, p.2))
      | e :: rest2 =>
        match escDecode e with
        | none => none
        | some c => (parseStringBody fuel rest2).map (fun p => (c :: p.1, p.2))
      | [] => none
    | c :: rest => (parseStringBody fuel rest).map (fun p => (c :: p.1, p.2))

/-- An integer literal (a following `.`/`e`/`E` would make it a float, which
this embedding does not model). -/
def parseDigits (cs : List Char) : Option (Nat × List Char) :=
  let ds := cs.takeWhile isDigitChar
  if ds.isEmpty then none
  else
    match cs.dropWhile isDigitChar with
    | [] => some (digitsToNat ds, [])
    | c :: rest =>
      if c == '.' || c == 'e' || c == 'E' then none
      else some (digitsToNat ds, c :: rest)

mutual

/-- Recursive-descent `json.loads` value parser, fuel-driven, dispatching on
the first non-blank character. -/
def parseValue : Nat → List Char → Option (Json × List Char)
  | 0, _ => none
  | fuel + 1, cs =>
    match skipWs cs with
    | [] => none
    | c :: rest =>
      if c = 'n' then
        match rest with
        | 'u' :: 'l' :: 'l' :: r => some (.null, r)
        | _ => none
      else if c = 't' then
        match rest with
        | 'r' :: 'u' :: 'e' :: r => some (.bool true, r)
        | _ => none
      else if c = 'f' then
        match rest with
        | 'a' :: 'l' :: 's' :: 'e' :: r => some (.bool false, r)
        | _ => none
      else if c = '"' then
        (parseStringBody (rest.length + 1) rest).map (fun p =>
          (.str ⟨p.1⟩, p.2))
      else if c = '[' then
        if (skipWs rest).head? = some ']' then some (.arr [], (skipWs rest).tail)
        else parseElems fuel rest []
      else if c = '\x7b' then
        if (skipWs rest).head? = some '\x7d' then
          some (.obj [], (skipWs rest).tail)
        else parseMembers fuel rest []
      else if c = '-' then
        (parseDigits rest).map (fun p => (.num (-(p.1 : Int)), p.2))
      else if isDigitChar c then
        (parseDigits (c :: rest)).map (fun p => (.num (p.1 : Int), p.2))
      else none

def parseElems : Nat → List Char → List Json → Option (Json × List Char)
  | 0, _, _ => none
  | fuel + 1, cs, acc =>
    match parseValue fuel cs with
    | none => none
    | some (v, r) =>
      match skipWs r with
      | ',' :: r2 => parseElems fuel r2 (acc ++ [v])
      | ']' :: r2 => some (.arr (acc ++ [v]), r2)
      | _ => none

def parseMembers : Nat → List Char → List (String × Json) →
    Option (Json × List Char)
  | 0, _, _ => none
  | fuel + 1, cs, acc =>
    match skipWs cs with
    | '"' :: rest =>
      match parseStringBody (rest.length + 1) rest with
      | none => none
      | some (k, r1) =>
        match skipWs r1 with
        | ':' :: r2 =>
          match parseValue fuel r2 with
          | none => none
          | some (v, r3) =>
            match skipWs r3 with
            | ',' :: r4 => parseMembers fuel r4 (acc ++ [(⟨k⟩, v)])
            | '\x7d' :: r4 => some (.obj (acc ++ [(⟨k⟩, v)]), r4)
            | _ => none
        | _ => none
    | _ => none

end

/-- `json.loads(s)`: parse one value, allow trailing whitespace only. -/
def loads (s : String) : Option Json :=
  match parseValue (s.data.length + 1) s.data with
  | some (j, rest) => if (skipWs rest).isEmpty then some j else none
  | none => none

/-- `load_json(path, default)`: the file is `none` when absent, else its
contents; undecodable contents yield the default. -/
def load_json (file : Option String) (default : Json) : Json :=
  match file with
  | none => default
  | some contents =>
    match loads contents with
    | some doc => doc
    | none => default

/-- `save_json(path, data)`: the contents written to the file. -/
def save_json (doc : Json) : String := dumps doc



example : dumps (Json.obj [("a", Json.arr [Json.num 1, Json.num (-2), Json.str "café", Json.null, Json.bool true]), ("b", Json.obj [("x", Json.str "ñ\n\t\"q\\"), ("y", Json.arr [])]), ("c", Json.str "😀"), ("d", Json.num 0)]) = "\x7b\n  \"a\": [\n    1,\n    -2,\n    \"caf\\u00e9\",\n    null,\n    true\n  ],\n  \"b\": \x7b\n    \"x\": \"\\u00f1\\n\\t\\\"q\\\\\",\n    \"y\": []\n  \x7d,\n  \"c\": \"\\ud83d\\ude00\",\n  \"d\": 0\n\x7d" := by decide

set_option maxRecDepth 20000 in
example : loads (dumps (Json.obj [("a", Json.arr [Json.num 1, Json.num (-2), Json.str "café", Json.null, Json.bool true]), ("b", Json.obj [("x", Json.str "ñ\n\t\"q\\"), ("y", Json.arr [])]), ("c", Json.str "😀"), ("d", Json.num 0)])) = some (Json.obj [("a", Json.arr [Json.num 1, Json.num (-2), Json.str "café", Json.null, Json.bool true]), ("b", Json.obj [("x", Json.str "ñ\n\t\"q\\"), ("y", Json.arr [])]), ("c", Json.str "😀"), ("d", Json.num 0)]) := by decide

example : loads "\x7binvalid" = none := by decide

example : loads "[1, 2.5]" = none := by decide

/-! ### Round-trip lemmas for the document store -/

theorem skipWs_cons_nonWs {c : Char} (l : List Char) (h : jsonWs c = false) :
    skipWs (c :: l) = c :: l := by
  simp [skipWs, List.dropWhile_cons, h]

theorem skipWs_append_ws {w : List Char} (l : List Char)
    (h : ∀ c ∈ w, jsonWs c = true) : skipWs (w ++ l) = skipWs l := by
  induction w with
  | nil => rfl
  | cons c t ih =>
    have hc := h c (by simp)
    simp only [List.cons_append, skipWs, List.dropWhile_cons, hc, if_true]
    exact ih (fun x hx => h x (by simp [hx]))

theorem skipWs_indent (n : Nat) (l : List Char) :
    skipWs ('\n' :: (spacesN n ++ l)) = skipWs l := by
  have h1 : skipWs (spacesN n ++ l) = skipWs l := by
    apply skipWs_append_ws
    intro c hc
    rw [List.eq_of_mem_replicate hc]
    decide
  have h2 : jsonWs '\n' = true := by decide
  simp only [skipWs, List.dropWhile_cons, h2, if_true]
  exact h1

theorem natDigitsAux_all_digits :
    ∀ fuel n, ∀ c ∈ natDigitsAux fuel n, isDigitChar c = true := by
  intro fuel
  induction fuel with
  | zero => intro n c hc; simp [natDigitsAux] at hc
  | succ f ih =>
    intro n c hc
    have hdig : ∀ d : Nat, isDigitChar (digitChar d) = true := by
      intro d
      have : d % 10 < 10 := Nat.mod_lt _ (by omega)
      have h10 : ∀ e < 10, isDigitChar (digitChar e) = true := by decide
      have : digitChar d = digitChar (d % 10) := by
        simp [digitChar, Nat.mod_mod_of_dvd]
      rw [this]
      exact h10 _ (Nat.mod_lt _ (by omega))
    simp only [natDigitsAux] at hc
    split at hc
    · simp only [List.mem_singleton] at hc
      subst hc
      exact hdig n
    · rcases List.mem_append.mp hc with h | h
      · exact ih _ c h
      · simp only [List.mem_singleton] at h
        subst h
        exact hdig _

theorem natDigitsAux_ne_nil : ∀ fuel n, 0 < fuel → natDigitsAux fuel n ≠ [] := by
  intro fuel n h
  cases fuel with
  | zero => omega
  | succ f =>
    simp only [natDigitsAux]
    split
    · simp
    · simp

theorem digit_not_ws {c : Char} (h : isDigitChar c = true) : jsonWs c = false := by
  simp only [isDigitChar, Bool.and_eq_true, decide_eq_true_eq] at h
  simp only [jsonWs, Bool.or_eq_false_iff, decide_eq_false_iff_not]
  omega

theorem digitsToNat_foldl :
    ∀ fuel n acc, n < fuel →
      List.foldl (fun a c => a * 10 + (c.toNat - 48)) acc (natDigitsAux fuel n) =
        acc * 10 ^ (natDigitsAux fuel n).length + n := by
  intro fuel
  induction fuel with
  | zero => omega
  | succ f ih =>
    intro n acc hn
    by_cases h : n < 10
    · have hd : (digitChar n).toNat = 48 + n := by
        have h10 : ∀ e < 10, (digitChar e).toNat = 48 + e := by decide
        exact h10 n h
      simp only [natDigitsAux, if_pos h, List.foldl_cons, List.foldl_nil,
        List.length_singleton, pow_one, hd]
      omega
    · have hrec : n / 10 < f := by omega
      have hd : (digitChar (n % 10)).toNat = 48 + n % 10 := by
        have h10 : ∀ e < 10, (digitChar e).toNat = 48 + e := by decide
        have : digitChar (n % 10) = digitChar (n % 10 % 10) := by
          simp [digitChar, Nat.mod_mod_of_dvd]
        exact h10 _ (Nat.mod_lt _ (by omega))
      simp only [natDigitsAux, if_neg h, List.foldl_append, List.foldl_cons,
        List.foldl_nil, List.length_append, List.length_singleton]
      rw [ih _ acc hrec, hd]
      have hmod := Nat.div_add_mod n 10
      rw [pow_succ]
      have : acc * (10 ^ (natDigitsAux f (n / 10)).length * 10) =
          acc * 10 ^ (natDigitsAux f (n / 10)).length * 10 := by ring
      rw [this]
      omega

theorem digitsToNat_natRepr (n : Nat) :
    digitsToNat (natDigitsAux (n + 1) n) = n := by
  have := digitsToNat_foldl (n + 1) n 0 (by omega)
  simpa [digitsToNat] using this

theorem hexVal_hexDigit : ∀ d < 16, hexVal (hexDigit d) = some d := by decide

theorem hexVal4_hex4 (n : Nat) (h : n < 65536) :
    hexVal4 (hexDigit (n / 4096 % 16)) (hexDigit (n / 256 % 16))
      (hexDigit (n / 16 % 16)) (hexDigit (n % 16)) = some n := by
  have e1 := hexVal_hexDigit (n / 4096 % 16) (Nat.mod_lt _ (by omega))
  have e2 := hexVal_hexDigit (n / 256 % 16) (Nat.mod_lt _ (by omega))
  have e3 := hexVal_hexDigit (n / 16 % 16) (Nat.mod_lt _ (by omega))
  have e4 := hexVal_hexDigit (n % 16) (Nat.mod_lt _ (by omega))
  simp only [hexVal4, e1, e2, e3, e4, Option.bind_eq_bind, Option.some_bind,
    Option.some.injEq]
  omega

theorem char_valid_range (c : Char) :
    c.toNat < 55296 ∨ (57344 ≤ c.toNat ∧ c.toNat < 1114112) := c.valid

theorem parseStringBody_quote (f : Nat) (l : List Char) :
    parseStringBody (f + 1) ('"' :: l) = some ([], l) := rfl

theorem parseStringBody_plain {c : Char} (f : Nat) (l : List Char)
    (h1 : c ≠ '"') (h2 : c ≠ '\\') :
    parseStringBody (f + 1) (c :: l) =
      (parseStringBody f l).map (fun p => (c :: p.1, p.2)) := by
  simp only [parseStringBody, h1, h2]

theorem parseStringBody_esc (f : Nat) (e c : Char) (l : List Char)
    (hd : escDecode e = some c) (hu : e ≠ 'u') :
    parseStringBody (f + 1) ('\\' :: e :: l) =
      (parseStringBody f l).map (fun p => (c :: p.1, p.2)) := by
  simp only [parseStringBody]
  split
  all_goals first
    | (next heq =>
        exact absurd (List.cons.inj heq).1 hu)
    | (next e' rest2 heq =>
        obtain ⟨he, hl⟩ := List.cons.inj heq
        subst he
        subst hl
        rw [hd])
    | (next heq => simp at heq)

theorem parseStringBody_uArm (f : Nat) (a b c d : Char) (rest2 : List Char) :
    parseStringBody (f + 1) ('\\' :: 'u' :: a :: b :: c :: d :: rest2) =
      (match hexVal4 a b c d with
       | none => none
       | some n =>
         if 55296 ≤ n ∧ n ≤ 56319 then
           match rest2 with
           | '\\' :: 'u' :: a2 :: b2 :: c2 :: d2 :: rest3 =>
             match hexVal4 a2 b2 c2 d2 with
             | none => none
             | some n2 =>
               if 56320 ≤ n2 ∧ n2 ≤ 57343 then
                 (parseStringBody f rest3).map (fun p =>
                   (Char.ofNat (65536 + (n - 55296) * 1024 + (n2 - 56320)) ::
                     p.1, p.2))
               else none
           | _ => none
         else if 56320 ≤ n ∧ n ≤ 57343 then none
         else (parseStringBody f rest2).map (fun p =>
           (Char.ofNat n :: p.1, p.2))) := rfl

theorem parseStringBody_u (f : Nat) (n : Nat) (l : List Char)
    (hn : n < 65536) (hs : ¬ (55296 ≤ n ∧ n ≤ 57343)) :
    parseStringBody (f + 1) ('\\' :: 'u' :: (hex4 n ++ l)) =
      (parseStringBody f l).map (fun p => (Char.ofNat n :: p.1, p.2)) := by
  rw [show ('\\' :: 'u' :: (hex4 n ++ l)) =
    '\\' :: 'u' :: hexDigit (n / 4096 % 16) :: hexDigit (n / 256 % 16) ::
      hexDigit (n / 16 % 16) :: hexDigit (n % 16) :: l from rfl]
  rw [parseStringBody_uArm, hexVal4_hex4 n hn]
  split
  · next heq => exact absurd heq (by simp)
  · next m heq =>
    obtain rfl : n = m := by injection heq
    rw [if_neg (by omega), if_neg (by omega)]

theorem parseStringBody_pairArm (f : Nat) (a b c d a2 b2 c2 d2 : Char)
    (rest3 : List Char) :
    parseStringBody (f + 1)
      ('\\' :: 'u' :: a :: b :: c :: d ::
        '\\' :: 'u' :: a2 :: b2 :: c2 :: d2 :: rest3) =
      (match hexVal4 a b c d with
       | none => none
       | some n =>
         if 55296 ≤ n ∧ n ≤ 56319 then
           match hexVal4 a2 b2 c2 d2 with
           | none => none
           | some n2 =>
             if 56320 ≤ n2 ∧ n2 ≤ 57343 then
               (parseStringBody f rest3).map (fun p =>
                 (Char.ofNat (65536 + (n - 55296) * 1024 + (n2 - 56320)) ::
                   p.1, p.2))
             else none
         else if 56320 ≤ n ∧ n ≤ 57343 then none
         else (parseStringBody f
             ('\\' :: 'u' :: a2 :: b2 :: c2 :: d2 :: rest3)).map
           (fun p => (Char.ofNat n :: p.1, p.2))) := rfl

theorem parseStringBody_pair (f : Nat) (n : Nat) (l : List Char)
    (h1 : 65536 ≤ n) (h2 : n < 1114112) :
    parseStringBody (f + 1) ('\\' :: 'u' ::
      (hex4 (55296 + (n - 65536) / 1024 % 1024) ++
        ('\\' :: 'u' :: (hex4 (56320 + (n - 65536) % 1024) ++ l)))) =
      (parseStringBody f l).map (fun p => (Char.ofNat n :: p.1, p.2)) := by
  have ehi := hexVal4_hex4 (55296 + (n - 65536) / 1024 % 1024) (by omega)
  have elo := hexVal4_hex4 (56320 + (n - 65536) % 1024) (by omega)
  rw [show ('\\' :: 'u' ::
      (hex4 (55296 + (n - 65536) / 1024 % 1024) ++
        ('\\' :: 'u' :: (hex4 (56320 + (n - 65536) % 1024) ++ l)))) =
    '\\' :: 'u' ::
      hexDigit ((55296 + (n - 65536) / 1024 % 1024) / 4096 % 16) ::
      hexDigit ((55296 + (n - 65536) / 1024 % 1024) / 256 % 16) ::
      hexDigit ((55296 + (n - 65536) / 1024 % 1024) / 16 % 16) ::
      hexDigit ((55296 + (n - 65536) / 1024 % 1024) % 16) ::
      '\\' :: 'u' ::
      hexDigit ((56320 + (n - 65536) % 1024) / 4096 % 16) ::
      hexDigit ((56320 + (n - 65536) % 1024) / 256 % 16) ::
      hexDigit ((56320 + (n - 65536) % 1024) / 16 % 16) ::
      hexDigit ((56320 + (n - 65536) % 1024) % 16) :: l from rfl]
  rw [parseStringBody_pairArm, ehi, elo]
  split
  · next heq => exact absurd heq (by simp)
  · next m heq =>
    obtain rfl : 55296 + (n - 65536) / 1024 % 1024 = m := by injection heq
    rw [if_pos (by omega)]
    split
    · next heq2 => exact absurd heq2 (by simp)
    · next m2 heq2 =>
      obtain rfl : 56320 + (n - 65536) % 1024 = m2 := by injection heq2
      rw [if_pos (by omega)]
      have harith : 65536 + (55296 + (n - 65536) / 1024 % 1024 - 55296) * 1024 +
          (56320 + (n - 65536) % 1024 - 56320) = n := by omega
      rw [harith]

theorem escapeStr_cons (c : Char) (t : List Char) :
    escapeStr (c :: t) = escapeChar c ++ escapeStr t := by
  simp [escapeStr]

theorem escapeChar_length_pos (c : Char) : 0 < (escapeChar c).length := by
  unfold escapeChar
  repeat' split
  all_goals simp

theorem escapeStr_length (l : List Char) : l.length ≤ (escapeStr l).length := by
  induction l with
  | nil => simp [escapeStr]
  | cons c t ih =>
    rw [escapeStr_cons, List.length_append, List.length_cons]
    have := escapeChar_length_pos c
    omega

/-- Decoding inverts `ensure_ascii` escaping: the JSON string-literal body
`escape(l) ++ '"' ++ rest` parses back to exactly `l`. -/
theorem parse_escape : ∀ (l : List Char) (fuel : Nat) (rest : List Char),
    l.length < fuel →
    parseStringBody fuel (escapeStr l ++ '"' :: rest) = some (l, rest) := by
  intro l
  induction l with
  | nil =>
    intro fuel rest h
    obtain ⟨f, rfl⟩ : ∃ f, fuel = f + 1 := ⟨fuel - 1, by omega⟩
    show parseStringBody (f + 1) (escapeStr [] ++ '"' :: rest) = _
    rw [show escapeStr [] = [] from rfl, List.nil_append, parseStringBody_quote]
  | cons c t ih =>
    intro fuel rest h
    obtain ⟨f, rfl⟩ : ∃ f, fuel = f + 1 := ⟨fuel - 1, by omega⟩
    have hf : t.length < f := by
      simp only [List.length_cons] at h
      omega
    rw [escapeStr_cons, List.append_assoc]
    by_cases h1 : c = '"'
    · subst h1
      rw [show escapeChar '"' = ['\\', '"'] from rfl]
      rw [show (['\\', '"'] : List Char) ++ (escapeStr t ++ '"' :: rest) =
        '\\' :: '"' :: (escapeStr t ++ '"' :: rest) from rfl]
      rw [parseStringBody_esc f '"' '"' _ (by decide) (by decide), ih f rest hf]
      rfl
    · by_cases h2 : c = '\\'
      · subst h2
        rw [show escapeChar '\\' = ['\\', '\\'] from rfl]
        rw [show (['\\', '\\'] : List Char) ++ (escapeStr t ++ '"' :: rest) =
          '\\' :: '\\' :: (escapeStr t ++ '"' :: rest) from rfl]
        rw [parseStringBody_esc f '\\' '\\' _ (by decide) (by decide), ih f rest hf]
        rfl
      · by_cases h3 : c = '\n'
        · subst h3
          rw [show escapeChar '\n' = ['\\', 'n'] from rfl]
          rw [show (['\\', 'n'] : List Char) ++ (escapeStr t ++ '"' :: rest) =
            '\\' :: 'n' :: (escapeStr t ++ '"' :: rest) from rfl]
          rw [parseStringBody_esc f 'n' '\n' _ (by decide) (by decide), ih f rest hf]
          rfl
        · by_cases h4 : c = '\t'
          · subst h4
            rw [show escapeChar '\t' = ['\\', 't'] from rfl]
            rw [show (['\\', 't'] : List Char) ++ (escapeStr t ++ '"' :: rest) =
              '\\' :: 't' :: (escapeStr t ++ '"' :: rest) from rfl]
            rw [parseStringBody_esc f 't' '\t' _ (by decide) (by decide), ih f rest hf]
            rfl
          · by_cases h5 : c = '\x0d'
            · subst h5
              rw [show escapeChar '\x0d' = ['\\', 'r'] from rfl]
              rw [show (['\\', 'r'] : List Char) ++ (escapeStr t ++ '"' :: rest)
                = '\\' :: 'r' :: (escapeStr t ++ '"' :: rest) from rfl]
              rw [parseStringBody_esc f 'r' '\x0d' _ (by decide) (by decide), ih f rest hf]
              rfl
            · by_cases h6 : c = '\x08'
              · subst h6
                rw [show escapeChar '\x08' = ['\\', 'b'] from rfl]
                rw [show (['\\', 'b'] : List Char) ++ (escapeStr t ++ '"' :: rest)
                  = '\\' :: 'b' :: (escapeStr t ++ '"' :: rest) from rfl]
                rw [parseStringBody_esc f 'b' '\x08' _ (by decide) (by decide), ih f rest hf]
                rfl
              · by_cases h7 : c = '\x0c'
                · subst h7
                  rw [show escapeChar '\x0c' = ['\\', 'f'] from rfl]
                  rw [show (['\\', 'f'] : List Char) ++
                    (escapeStr t ++ '"' :: rest)
                    = '\\' :: 'f' :: (escapeStr t ++ '"' :: rest) from rfl]
                  rw [parseStringBody_esc f 'f' '\x0c' _ (by decide) (by decide),
                    ih f rest hf]
                  rfl
                · by_cases h8 : 32 ≤ c.toNat ∧ c.toNat ≤ 126
                  · have : escapeChar c = [c] := by
                      unfold escapeChar
                      rw [if_neg h1, if_neg h2, if_neg h3, if_neg h4, if_neg h5,
                        if_neg h6, if_neg h7, if_pos h8]
                    rw [this, List.singleton_append,
                      parseStringBody_plain f _ h1 h2, ih f rest hf]
                    rfl
                  · by_cases h9 : c.toNat < 65536
                    · have : escapeChar c = '\\' :: 'u' :: hex4 c.toNat := by
                        unfold escapeChar
                        rw [if_neg h1, if_neg h2, if_neg h3, if_neg h4,
                          if_neg h5, if_neg h6, if_neg h7, if_neg h8,
                          if_pos h9]
                      rw [this]
                      rw [show ('\\' :: 'u' :: hex4 c.toNat) ++
                        (escapeStr t ++ '"' :: rest) =
                        '\\' :: 'u' :: (hex4 c.toNat ++
                          (escapeStr t ++ '"' :: rest)) from rfl]
                      have hns : ¬ (55296 ≤ c.toNat ∧ c.toNat ≤ 57343) := by
                        rcases char_valid_range c with hv | hv <;> omega
                      rw [parseStringBody_u f c.toNat _ h9 hns, ih f rest hf]
                      simp [Char.ofNat_toNat]
                    · have hrange := char_valid_range c
                      have hge : 65536 ≤ c.toNat := by
                        rcases hrange with hv | hv <;> omega
                      have hlt : c.toNat < 1114112 := by
                        rcases hrange with hv | hv <;> omega
                      have : escapeChar c = '\\' :: 'u' ::
                          (hex4 (55296 + (c.toNat - 65536) / 1024 % 1024) ++
                            '\\' :: 'u' ::
                              hex4 (56320 + (c.toNat - 65536) % 1024)) := by
                        unfold escapeChar
                        rw [if_neg h1, if_neg h2, if_neg h3, if_neg h4,
                          if_neg h5, if_neg h6, if_neg h7, if_neg h8,
                          if_neg h9]
                      rw [this]
                      rw [show ('\\' :: 'u' ::
                          (hex4 (55296 + (c.toNat - 65536) / 1024 % 1024) ++
                            '\\' :: 'u' ::
                              hex4 (56320 + (c.toNat - 65536) % 1024))) ++
                          (escapeStr t ++ '"' :: rest) =
                        '\\' :: 'u' ::
                          (hex4 (55296 + (c.toNat - 65536) / 1024 % 1024) ++
                            ('\\' :: 'u' ::
                              (hex4 (56320 + (c.toNat - 65536) % 1024) ++
                                (escapeStr t ++ '"' :: rest)))) from by
                        simp [List.append_assoc]]
                      rw [parseStringBody_pair f c.toNat _ hge hlt, ih f rest hf]
                      simp [Char.ofNat_toNat]

theorem takeWhile_append_all {p : Char → Bool} {l1 : List Char}
    (l2 : List Char) (h : ∀ c ∈ l1, p c = true) :
    (l1 ++ l2).takeWhile p = l1 ++ l2.takeWhile p := by
  induction l1 with
  | nil => rfl
  | cons c t ih =>
    have hc := h c (by simp)
    simp only [List.cons_append, List.takeWhile_cons, hc, if_true]
    rw [ih (fun x hx => h x (by simp [hx]))]

theorem dropWhile_append_all {p : Char → Bool} {l1 : List Char}
    (l2 : List Char) (h : ∀ c ∈ l1, p c = true) :
    (l1 ++ l2).dropWhile p = l2.dropWhile p := by
  induction l1 with
  | nil => rfl
  | cons c t ih =>
    have hc := h c (by simp)
    simp only [List.cons_append, List.dropWhile_cons, hc, if_true]
    exact ih (fun x hx => h x (by simp [hx]))

/-- The characters that may legally follow a serialized integer: nothing, or
a character that neither extends the number nor turns it into a float. -/
def numBoundary : List Char → Prop
  | [] => True
  | c :: _ => isDigitChar c = false ∧ c ≠ '.' ∧ c ≠ 'e' ∧ c ≠ 'E'

theorem parseDigits_natDigits (n : Nat) (rest : List Char)
    (hb : numBoundary rest) :
    parseDigits (natDigitsAux (n + 1) n ++ rest) = some (n, rest) := by
  have hall := natDigitsAux_all_digits (n + 1) n
  have hne := natDigitsAux_ne_nil (n + 1) n (by omega)
  simp only [parseDigits]
  rw [takeWhile_append_all _ hall, dropWhile_append_all _ hall]
  cases rest with
  | nil =>
    simp only [List.takeWhile_nil, List.append_nil, List.dropWhile_nil]
    rw [if_neg (by simpa [List.isEmpty_iff] using hne)]
    rw [digitsToNat_natRepr]
  | cons c r =>
    obtain ⟨hd, hdot, he, hE⟩ := hb
    simp only [List.takeWhile_cons, hd, Bool.false_eq_true, if_false,
      List.append_nil, List.dropWhile_cons, List.dropWhile_nil]
    rw [if_neg (by simpa [List.isEmpty_iff] using hne)]
    have hc : (c == '.' || c == 'e' || c == 'E') = false := by
      simp only [Bool.or_eq_false_iff, beq_eq_false_iff_ne]
      exact ⟨⟨hdot, he⟩, hE⟩
    rw [hc]
    simp only [Bool.false_eq_true, if_false, digitsToNat_natRepr]

theorem natRepr_data_cons (m : Nat) :
    ∃ c t, natDigitsAux (m + 1) m = c :: t ∧ jsonWs c = false := by
  cases hD : natDigitsAux (m + 1) m with
  | nil => exact absurd hD (natDigitsAux_ne_nil (m + 1) m (by omega))
  | cons c t =>
    refine ⟨c, t, rfl, digit_not_ws ?_⟩
    exact natDigitsAux_all_digits (m + 1) m c (by rw [hD]; simp)

theorem dump_head_not_ws :
    ∀ (j : Json) (level : Nat) (rest : List Char),
      skipWs (dumpJson j level ++ rest) = dumpJson j level ++ rest := by
  intro j level rest
  cases j with
  | null => exact skipWs_cons_nonWs _ (by decide)
  | bool b => cases b <;> exact skipWs_cons_nonWs _ (by decide)
  | num n =>
    cases n with
    | ofNat m =>
      show skipWs (natDigitsAux (m + 1) m ++ rest) =
        natDigitsAux (m + 1) m ++ rest
      obtain ⟨c, t, hD, hws⟩ := natRepr_data_cons m
      rw [hD]
      exact skipWs_cons_nonWs _ hws
    | negSucc m =>
      show skipWs (('-' :: (natRepr (m + 1)).data) ++ rest) = _
      exact skipWs_cons_nonWs _ (by decide)
  | str s => exact skipWs_cons_nonWs _ (by decide)
  | arr items =>
    show skipWs (dumpArr items level ++ rest) = dumpArr items level ++ rest
    cases items with
    | nil => exact skipWs_cons_nonWs _ (by decide)
    | cons x xs => exact skipWs_cons_nonWs _ (by decide)
  | obj fields =>
    show skipWs (dumpObjFields fields level ++ rest) =
      dumpObjFields fields level ++ rest
    cases fields with
    | nil => exact skipWs_cons_nonWs _ (by decide)
    | cons f fs =>
      obtain ⟨k, v⟩ := f
      exact skipWs_cons_nonWs _ (by decide)

theorem parseValue_ws (fuel : Nat) {w : List Char} (cs : List Char)
    (h : ∀ c ∈ w, jsonWs c = true) :
    parseValue fuel (w ++ cs) = parseValue fuel cs := by
  cases fuel with
  | zero => rfl
  | succ f =>
    simp only [parseValue]
    rw [skipWs_append_ws _ h]

mutual

def jsize : Json → Nat
  | .arr l => 1 + jsizeList l
  | .obj l => 1 + jsizeFields l
  | _ => 1

def jsizeList : List Json → Nat
  | [] => 0
  | x :: xs => 1 + jsize x + jsizeList xs

def jsizeFields : List (String × Json) → Nat
  | [] => 0
  | (_, v) :: fs => 1 + jsize v + jsizeFields fs

end

theorem jsize_le_dump :
    ∀ j : Json, ∀ level : Nat, jsize j ≤ (dumpJson j level).length + 1 := by
  intro j
  induction j using Json.myrec with
  | hnull => intro level; simp [jsize]
  | hbool b => intro level; cases b <;> simp [jsize]
  | hnum n => intro level; simp [jsize]
  | hstr s => intro level; simp [jsize]
  | harr l ih =>
    intro level
    have hitems : ∀ (ys : List Json) (lv : Nat), (∀ y ∈ ys, y ∈ l) →
        jsizeList ys ≤ (dumpItems ys lv).length := by
      intro ys
      induction ys with
      | nil => intro lv _; simp [jsizeList, dumpItems]
      | cons y yt ihy =>
        intro lv hsub
        have h1 := ih y (hsub y (by simp)) lv
        have h2 := ihy lv (fun z hz => hsub z (by simp [hz]))
        simp only [jsizeList, dumpItems, List.length_cons, List.length_append]
        omega
    cases l with
    | nil => simp [jsize, jsizeList, dumpJson, dumpArr]
    | cons x xs =>
      have h1 := ih x (by simp) (level + 1)
      have h2 := hitems xs (level + 1) (fun z hz => by simp [hz])
      simp only [jsize, jsizeList, dumpJson, dumpArr, List.length_cons,
        List.length_append]
      omega
  | hobj l ih =>
    intro level
    have hfields : ∀ (ys : List (String × Json)) (lv : Nat),
        (∀ y ∈ ys, y ∈ l) →
        jsizeFields ys ≤ (dumpFields ys lv).length := by
      intro ys
      induction ys with
      | nil => intro lv _; simp [jsizeFields, dumpFields]
      | cons y yt ihy =>
        intro lv hsub
        obtain ⟨k, v⟩ := y
        have h1 : jsize v ≤ (dumpJson v lv).length + 1 :=
          ih (k, v) (hsub (k, v) (by simp)) lv
        have h2 := ihy lv (fun z hz => hsub z (by simp [hz]))
        simp only [jsizeFields, dumpFields, List.length_cons, List.length_append]
        omega
    cases l with
    | nil => simp [jsize, jsizeFields, dumpJson, dumpObjFields]
    | cons f fs =>
      obtain ⟨k, v⟩ := f
      have h1 : jsize v ≤ (dumpJson v (level + 1)).length + 1 :=
        ih (k, v) (by simp) (level + 1)
      have h2 := hfields fs (level + 1) (fun z hz => by simp [hz])
      simp only [jsize, jsizeFields, dumpJson, dumpObjFields, List.length_cons,
        List.length_append]
      omega

theorem jsize_pos (j : Json) : 1 ≤ jsize j := by
  cases j <;> simp [jsize]

theorem numBoundary_nil : numBoundary [] := trivial

theorem numBoundary_comma (l : List Char) : numBoundary (',' :: l) :=
  ⟨by decide, by decide, by decide, by decide⟩

theorem numBoundary_nl (l : List Char) : numBoundary ('\n' :: l) :=
  ⟨by decide, by decide, by decide, by decide⟩

/-- One step of `parseValue` on input whose head is not blank. -/
theorem parseValue_step (f : Nat) (c : Char) (l : List Char)
    (hw : jsonWs c = false) :
    parseValue (f + 1) (c :: l) =
      (if c = 'n' then
        match l with
        | 'u' :: 'l' :: 'l' :: r => some (.null, r)
        | _ => none
      else if c = 't' then
        match l with
        | 'r' :: 'u' :: 'e' :: r => some (.bool true, r)
        | _ => none
      else if c = 'f' then
        match l with
        | 'a' :: 'l' :: 's' :: 'e' :: r => some (.bool false, r)
        | _ => none
      else if c = '"' then
        (parseStringBody (l.length + 1) l).map (fun p =>
          (Json.str ⟨p.1⟩, p.2))
      else if c = '[' then
        if (skipWs l).head? = some ']' then some (.arr [], (skipWs l).tail)
        else parseElems f l []
      else if c = '\x7b' then
        if (skipWs l).head? = some '\x7d' then
          some (.obj [], (skipWs l).tail)
        else parseMembers f l []
      else if c = '-' then
        (parseDigits l).map (fun p => (.num (-(p.1 : Int)), p.2))
      else if isDigitChar c then
        (parseDigits (c :: l)).map (fun p => (.num (p.1 : Int), p.2))
      else none) := by
  simp only [parseValue]
  rw [skipWs_cons_nonWs _ hw]

/-- The serialized form of every value starts with a character that closes
neither an array nor an object and is not blank. -/
theorem dump_head_chars (j : Json) (level : Nat) :
    ∃ c t, dumpJson j level = c :: t ∧ jsonWs c = false ∧
      c ≠ ']' ∧ c ≠ '\x7d' := by
  cases j with
  | null => exact ⟨'n', _, rfl, by decide, by decide, by decide⟩
  | bool b =>
    cases b
    · exact ⟨'f', _, rfl, by decide, by decide, by decide⟩
    · exact ⟨'t', _, rfl, by decide, by decide, by decide⟩
  | num n =>
    cases n with
    | ofNat m =>
      obtain ⟨c, t, hD, hws⟩ := natRepr_data_cons m
      have hd : isDigitChar c = true :=
        natDigitsAux_all_digits (m + 1) m c (by rw [hD]; simp)
      refine ⟨c, t, hD, hws, ?_, ?_⟩
      · intro h
        rw [h] at hd
        exact absurd hd (by decide)
      · intro h
        rw [h] at hd
        exact absurd hd (by decide)
    | negSucc m => exact ⟨'-', _, rfl, by decide, by decide, by decide⟩
  | str s => exact ⟨'"', _, rfl, by decide, by decide, by decide⟩
  | arr items =>
    cases items with
    | nil => exact ⟨'[', _, rfl, by decide, by decide, by decide⟩
    | cons x xs => exact ⟨'[', _, rfl, by decide, by decide, by decide⟩
  | obj fields =>
    cases fields with
    | nil => exact ⟨'\x7b', _, rfl, by decide, by decide, by decide⟩
    | cons f fs =>
      obtain ⟨k, v⟩ := f
      exact ⟨'\x7b', _, rfl, by decide, by decide, by decide⟩

theorem skipWs_dump_head_ne (j : Json) (level : Nat) (R : List Char)
    (b : Char) (hb : b = ']' ∨ b = '\x7d') :
    ¬ ((skipWs (dumpJson j level ++ R)).head? = some b) := by
  rw [dump_head_not_ws]
  obtain ⟨c, t, hD, _, h1, h2⟩ := dump_head_chars j level
  rw [hD]
  intro h
  simp only [List.cons_append, List.head?_cons, Option.some.injEq] at h
  rcases hb with rfl | rfl
  · exact h1 h
  · exact h2 h

/-- Parsing the serialized items of a non-empty array: the element list is
recovered and appended to the accumulator. -/
theorem parseElems_dump (lv LV : Nat) :
    ∀ (ys : List Json) (y : Json) (f : Nat) (acc : List Json)
      (rest : List Char),
      (∀ z, (z = y ∨ z ∈ ys) → ∀ (fuel level : Nat) (r : List Char),
        jsize z ≤ fuel → numBoundary r →
        parseValue fuel (dumpJson z level ++ r) = some (z, r)) →
      1 + jsize y + jsizeList ys ≤ f →
      parseElems f ('\n' :: (spacesN (2 * lv) ++ (dumpJson y lv ++
          (dumpItems ys lv ++ ('\n' :: (spacesN (2 * LV) ++ (']' :: rest)))))))
        acc = some (.arr (acc ++ y :: ys), rest) := by
  intro ys
  induction ys with
  | nil =>
    intro y f acc rest hP hf
    have hy := jsize_pos y
    obtain ⟨g, rfl⟩ : ∃ g, f = g + 1 := ⟨f - 1, by omega⟩
    simp only [parseElems]
    rw [show ('\n' :: (spacesN (2 * lv) ++ (dumpJson y lv ++
        (dumpItems [] lv ++ ('\n' :: (spacesN (2 * LV) ++ (']' :: rest))))))) =
      ('\n' :: spacesN (2 * lv)) ++ (dumpJson y lv ++
        ('\n' :: (spacesN (2 * LV) ++ (']' :: rest)))) from by
      simp [dumpItems]]
    rw [parseValue_ws _ _ (by
      intro c hc
      rcases List.mem_cons.mp hc with rfl | hc
      · decide
      · rw [List.eq_of_mem_replicate hc]; decide)]
    rw [hP y (Or.inl rfl) g lv _ (by omega) (numBoundary_nl _)]
    show (match skipWs ('\n' :: (spacesN (2 * LV) ++ (']' :: rest))) with
      | ',' :: r2 => parseElems g r2 (acc ++ [y])
      | ']' :: r2 => some (Json.arr (acc ++ [y]), r2)
      | _ => none) = _
    rw [show skipWs ('\n' :: (spacesN (2 * LV) ++ (']' :: rest))) =
      ']' :: rest from by
      rw [skipWs_indent]
      exact skipWs_cons_nonWs _ (by decide)]
    rfl
  | cons z zs ih =>
    intro y f acc rest hP hf
    have hy := jsize_pos y
    obtain ⟨g, rfl⟩ : ∃ g, f = g + 1 := ⟨f - 1, by omega⟩
    simp only [parseElems]
    rw [show ('\n' :: (spacesN (2 * lv) ++ (dumpJson y lv ++
        (dumpItems (z :: zs) lv ++
          ('\n' :: (spacesN (2 * LV) ++ (']' :: rest))))))) =
      ('\n' :: spacesN (2 * lv)) ++ (dumpJson y lv ++
        (',' :: '\n' :: (spacesN (2 * lv) ++ (dumpJson z lv ++
          (dumpItems zs lv ++
            ('\n' :: (spacesN (2 * LV) ++ (']' :: rest)))))))) from by
      simp [dumpItems]]
    rw [parseValue_ws _ _ (by
      intro c hc
      rcases List.mem_cons.mp hc with rfl | hc
      · decide
      · rw [List.eq_of_mem_replicate hc]; decide)]
    rw [hP y (Or.inl rfl) g lv _ (by omega) (numBoundary_comma _)]
    show (match skipWs (',' :: '\n' :: (spacesN (2 * lv) ++ (dumpJson z lv ++
        (dumpItems zs lv ++ ('\n' :: (spacesN (2 * LV) ++ (']' :: rest))))))) with
      | ',' :: r2 => parseElems g r2 (acc ++ [y])
      | ']' :: r2 => some (Json.arr (acc ++ [y]), r2)
      | _ => none) = _
    rw [show skipWs (',' :: '\n' :: (spacesN (2 * lv) ++ (dumpJson z lv ++
        (dumpItems zs lv ++ ('\n' :: (spacesN (2 * LV) ++ (']' :: rest))))))) =
      ',' :: '\n' :: (spacesN (2 * lv) ++ (dumpJson z lv ++
        (dumpItems zs lv ++ ('\n' :: (spacesN (2 * LV) ++ (']' :: rest))))))
      from skipWs_cons_nonWs _ (by decide)]
    show parseElems g ('\n' :: (spacesN (2 * lv) ++ (dumpJson z lv ++
      (dumpItems zs lv ++ ('\n' :: (spacesN (2 * LV) ++ (']' :: rest)))))))
      (acc ++ [y]) = _
    rw [ih z g (acc ++ [y]) rest
      (fun w hw => hP w (by
        rcases hw with rfl | hw
        · exact Or.inr (by simp)
        · exact Or.inr (by simp [hw])))
      (by simp only [jsizeList] at hf ⊢; omega)]
    simp

/-- Parsing the serialized members of a non-empty object. -/
theorem parseMembers_dump (lv LV : Nat) :
    ∀ (fs : List (String × Json)) (k : String) (v : Json) (f : Nat)
      (acc : List (String × Json)) (rest : List Char),
      (∀ z, (z = v ∨ z ∈ fs.map Prod.snd) → ∀ (fuel level : Nat)
        (r : List Char),
        jsize z ≤ fuel → numBoundary r →
        parseValue fuel (dumpJson z level ++ r) = some (z, r)) →
      1 + jsize v + jsizeFields fs ≤ f →
      parseMembers f ('\n' :: (spacesN (2 * lv) ++ ('"' ::
          (escapeStr k.data ++ ('"' :: ':' :: ' ' :: (dumpJson v lv ++
            (dumpFields fs lv ++
              ('\n' :: (spacesN (2 * LV) ++ ('\x7d' :: rest)))))))))) acc =
        some (.obj (acc ++ (k, v) :: fs), rest) := by
  intro fs
  induction fs with
  | nil =>
    intro k v f acc rest hP hf
    have hv := jsize_pos v
    obtain ⟨g, rfl⟩ : ∃ g, f = g + 1 := ⟨f - 1, by omega⟩
    simp only [dumpFields, List.nil_append]
    set T1 : List Char := '\n' :: (spacesN (2 * LV) ++ ('\x7d' :: rest))
      with hT1
    set T2 : List Char := ':' :: ' ' :: (dumpJson v lv ++ T1) with hT2
    simp only [parseMembers]
    rw [show skipWs ('\n' :: (spacesN (2 * lv) ++ ('"' ::
        (escapeStr k.data ++ ('"' :: T2))))) =
      '"' :: (escapeStr k.data ++ ('"' :: T2)) from by
      rw [skipWs_indent]
      exact skipWs_cons_nonWs _ (by decide)]
    show (match parseStringBody ((escapeStr k.data ++ ('"' :: T2)).length + 1)
        (escapeStr k.data ++ ('"' :: T2)) with
      | none => none
      | some (k1, r1) =>
        (match skipWs r1 with
         | ':' :: r2 =>
           (match parseValue g r2 with
            | none => none
            | some (w, r3) =>
              (match skipWs r3 with
               | ',' :: r4 => parseMembers g r4 (acc ++ [(String.mk k1, w)])
               | '\x7d' :: r4 =>
                 some (Json.obj (acc ++ [(String.mk k1, w)]), r4)
               | _ => none))
         | _ => none)) = _
    rw [parse_escape k.data _ T2 (by
      have := escapeStr_length k.data
      simp only [List.length_append, List.length_cons]
      omega)]
    show (match skipWs T2 with
      | ':' :: r2 =>
        (match parseValue g r2 with
         | none => none
         | some (w, r3) =>
           (match skipWs r3 with
            | ',' :: r4 => parseMembers g r4 (acc ++ [(String.mk k.data, w)])
            | '\x7d' :: r4 =>
              some (Json.obj (acc ++ [(String.mk k.data, w)]), r4)
            | _ => none))
      | _ => none) = _
    rw [show skipWs T2 = ':' :: ' ' :: (dumpJson v lv ++ T1) from by
      rw [hT2]
      exact skipWs_cons_nonWs _ (by decide)]
    show (match parseValue g (' ' :: (dumpJson v lv ++ T1)) with
      | none => none
      | some (w, r3) =>
        (match skipWs r3 with
         | ',' :: r4 => parseMembers g r4 (acc ++ [(String.mk k.data, w)])
         | '\x7d' :: r4 =>
           some (Json.obj (acc ++ [(String.mk k.data, w)]), r4)
         | _ => none)) = _
    rw [show (' ' :: (dumpJson v lv ++ T1)) = [' '] ++ (dumpJson v lv ++ T1)
      from rfl]
    rw [parseValue_ws _ _ (by intro c hc; simp at hc; subst hc; decide)]
    rw [hP v (Or.inl rfl) g lv T1 (by omega) (by
      rw [hT1]; exact numBoundary_nl _)]
    show (match skipWs T1 with
      | ',' :: r4 => parseMembers g r4 (acc ++ [(String.mk k.data, v)])
      | '\x7d' :: r4 => some (Json.obj (acc ++ [(String.mk k.data, v)]), r4)
      | _ => none) = _
    rw [show skipWs T1 = '\x7d' :: rest from by
      rw [hT1, skipWs_indent]
      exact skipWs_cons_nonWs _ (by decide)]
    rfl
  | cons p ps ih =>
    intro k v f acc rest hP hf
    obtain ⟨k2, v2⟩ := p
    have hv := jsize_pos v
    obtain ⟨g, rfl⟩ : ∃ g, f = g + 1 := ⟨f - 1, by omega⟩
    rw [show dumpFields ((k2, v2) :: ps) lv ++
        ('\n' :: (spacesN (2 * LV) ++ ('\x7d' :: rest))) =
      ',' :: '\n' :: (spacesN (2 * lv) ++ ('"' ::
        (escapeStr k2.data ++ ('"' :: ':' :: ' ' :: (dumpJson v2 lv ++
          (dumpFields ps lv ++
            ('\n' :: (spacesN (2 * LV) ++ ('\x7d' :: rest))))))))) from by
      simp [dumpFields]]
    set TR : List Char := '\n' :: (spacesN (2 * lv) ++ ('"' ::
      (escapeStr k2.data ++ ('"' :: ':' :: ' ' :: (dumpJson v2 lv ++
        (dumpFields ps lv ++
          ('\n' :: (spacesN (2 * LV) ++ ('\x7d' :: rest))))))))) with hTR
    set T2 : List Char := ':' :: ' ' :: (dumpJson v lv ++ (',' :: TR))
      with hT2
    simp only [parseMembers]
    rw [show skipWs ('\n' :: (spacesN (2 * lv) ++ ('"' ::
        (escapeStr k.data ++ ('"' :: T2))))) =
      '"' :: (escapeStr k.data ++ ('"' :: T2)) from by
      rw [skipWs_indent]
      exact skipWs_cons_nonWs _ (by decide)]
    show (match parseStringBody ((escapeStr k.data ++ ('"' :: T2)).length + 1)
        (escapeStr k.data ++ ('"' :: T2)) with
      | none => none
      | some (k1, r1) =>
        (match skipWs r1 with
         | ':' :: r2 =>
           (match parseValue g r2 with
            | none => none
            | some (w, r3) =>
              (match skipWs r3 with
               | ',' :: r4 => parseMembers g r4 (acc ++ [(String.mk k1, w)])
               | '\x7d' :: r4 =>
                 some (Json.obj (acc ++ [(String.mk k1, w)]), r4)
               | _ => none))
         | _ => none)) = _
    rw [parse_escape k.data _ T2 (by
      have := escapeStr_length k.data
      simp only [List.length_append, List.length_cons]
      omega)]
    show (match skipWs T2 with
      | ':' :: r2 =>
        (match parseValue g r2 with
         | none => none
         | some (w, r3) =>
           (match skipWs r3 with
            | ',' :: r4 => parseMembers g r4 (acc ++ [(String.mk k.data, w)])
            | '\x7d' :: r4 =>
              some (Json.obj (acc ++ [(String.mk k.data, w)]), r4)
            | _ => none))
      | _ => none) = _
    rw [show skipWs T2 = ':' :: ' ' :: (dumpJson v lv ++ (',' :: TR)) from by
      rw [hT2]
      exact skipWs_cons_nonWs _ (by decide)]
    show (match parseValue g (' ' :: (dumpJson v lv ++ (',' :: TR))) with
      | none => none
      | some (w, r3) =>
        (match skipWs r3 with
         | ',' :: r4 => parseMembers g r4 (acc ++ [(String.mk k.data, w)])
         | '\x7d' :: r4 =>
           some (Json.obj (acc ++ [(String.mk k.data, w)]), r4)
         | _ => none)) = _
    rw [show (' ' :: (dumpJson v lv ++ (',' :: TR))) =
      [' '] ++ (dumpJson v lv ++ (',' :: TR)) from rfl]
    rw [parseValue_ws _ _ (by intro c hc; simp at hc; subst hc; decide)]
    rw [hP v (Or.inl rfl) g lv (',' :: TR) (by omega) (numBoundary_comma _)]
    show (match skipWs (',' :: TR) with
      | ',' :: r4 => parseMembers g r4 (acc ++ [(String.mk k.data, v)])
      | '\x7d' :: r4 => some (Json.obj (acc ++ [(String.mk k.data, v)]), r4)
      | _ => none) = _
    rw [show skipWs (',' :: TR) = ',' :: TR
      from skipWs_cons_nonWs _ (by decide)]
    show parseMembers g TR (acc ++ [(String.mk k.data, v)]) = _
    rw [hTR]
    rw [ih k2 v2 g (acc ++ [(String.mk k.data, v)]) rest
      (fun w hw => hP w (by
        rcases hw with rfl | hw
        · exact Or.inr (by simp)
        · exact Or.inr (by simp [hw])))
      (by simp only [jsizeFields] at hf ⊢; omega)]
    simp

/-- Parsing inverts serialization: with enough fuel and a legal continuation,
`parseValue` on `dumpJson j level ++ rest` recovers exactly `j` and `rest`. -/
theorem parse_dump :
    ∀ (j : Json) (fuel level : Nat) (rest : List Char),
      jsize j ≤ fuel → numBoundary rest →
      parseValue fuel (dumpJson j level ++ rest) = some (j, rest) := by
  intro j
  induction j using Json.myrec with
  | hnull =>
    intro fuel level rest hf hb
    have h1 := jsize_pos Json.null
    obtain ⟨f, rfl⟩ : ∃ f, fuel = f + 1 := ⟨fuel - 1, by omega⟩
    show parseValue (f + 1) ('n' :: ('u' :: 'l' :: 'l' :: rest)) = _
    rw [parseValue_step f 'n' _ (by decide)]
    rfl
  | hbool b =>
    intro fuel level rest hf hb
    have h1 := jsize_pos (Json.bool b)
    obtain ⟨f, rfl⟩ : ∃ f, fuel = f + 1 := ⟨fuel - 1, by omega⟩
    cases b with
    | true =>
      show parseValue (f + 1) ('t' :: ('r' :: 'u' :: 'e' :: rest)) = _
      rw [parseValue_step f 't' _ (by decide)]
      rfl
    | false =>
      show parseValue (f + 1) ('f' :: ('a' :: 'l' :: 's' :: 'e' :: rest)) = _
      rw [parseValue_step f 'f' _ (by decide)]
      rfl
  | hnum n =>
    intro fuel level rest hf hb
    have h1 := jsize_pos (Json.num n)
    obtain ⟨f, rfl⟩ : ∃ f, fuel = f + 1 := ⟨fuel - 1, by omega⟩
    cases n with
    | ofNat m =>
      obtain ⟨c, t, hD, hws⟩ := natRepr_data_cons m
      have hd : isDigitChar c = true :=
        natDigitsAux_all_digits (m + 1) m c (by rw [hD]; simp)
      show parseValue (f + 1) (natDigitsAux (m + 1) m ++ rest) = _
      rw [hD]
      show parseValue (f + 1) (c :: (t ++ rest)) = _
      rw [parseValue_step f c _ hws]
      have hcn : ¬(c = 'n') := by intro h; subst h; exact absurd hd (by decide)
      have hct : ¬(c = 't') := by intro h; subst h; exact absurd hd (by decide)
      have hcf : ¬(c = 'f') := by intro h; subst h; exact absurd hd (by decide)
      have hcq : ¬(c = '"') := by intro h; subst h; exact absurd hd (by decide)
      have hcb : ¬(c = '[') := by intro h; subst h; exact absurd hd (by decide)
      have hcB : ¬(c = '\x7b') := by
        intro h; subst h; exact absurd hd (by decide)
      have hcm : ¬(c = '-') := by intro h; subst h; exact absurd hd (by decide)
      rw [if_neg hcn, if_neg hct, if_neg hcf, if_neg hcq, if_neg hcb,
        if_neg hcB, if_neg hcm, if_pos hd]
      rw [show c :: (t ++ rest) = natDigitsAux (m + 1) m ++ rest from by
        rw [hD, List.cons_append]]
      rw [parseDigits_natDigits m rest hb]
      rfl
    | negSucc m =>
      show parseValue (f + 1)
        ('-' :: (natDigitsAux (m + 2) (m + 1) ++ rest)) = _
      rw [parseValue_step f '-' _ (by decide)]
      show (parseDigits (natDigitsAux (m + 2) (m + 1) ++ rest)).map
        (fun p => (Json.num (-(p.1 : Int)), p.2)) = _
      rw [parseDigits_natDigits (m + 1) rest hb]
      rfl
  | hstr s =>
    intro fuel level rest hf hb
    have h1 := jsize_pos (Json.str s)
    obtain ⟨f, rfl⟩ : ∃ f, fuel = f + 1 := ⟨fuel - 1, by omega⟩
    show parseValue (f + 1) ('"' :: ((escapeStr s.data ++ ['"']) ++ rest)) = _
    rw [parseValue_step f '"' _ (by decide)]
    show (parseStringBody (((escapeStr s.data ++ ['"']) ++ rest).length + 1)
      ((escapeStr s.data ++ ['"']) ++ rest)).map
      (fun p => (Json.str ⟨p.1⟩, p.2)) = _
    rw [show (escapeStr s.data ++ ['"']) ++ rest =
        escapeStr s.data ++ ('"' :: rest) from by simp]
    rw [parse_escape s.data _ rest (by
      have := escapeStr_length s.data
      simp only [List.length_append, List.length_cons]
      omega)]
    rfl
  | harr l ih =>
    intro fuel level rest hf hb
    cases l with
    | nil =>
      have h1 := jsize_pos (Json.arr [])
      obtain ⟨f, rfl⟩ : ∃ f, fuel = f + 1 := ⟨fuel - 1, by omega⟩
      show parseValue (f + 1) ('[' :: (']' :: rest)) = _
      rw [parseValue_step f '[' _ (by decide)]
      show (if (skipWs (']' :: rest)).head? = some ']' then
          some (Json.arr [], (skipWs (']' :: rest)).tail)
        else parseElems f (']' :: rest) []) = _
      rw [show skipWs (']' :: rest) = ']' :: rest from
        skipWs_cons_nonWs _ (by decide)]
      rfl
    | cons x xs =>
      have h1 := jsize_pos (Json.arr (x :: xs))
      obtain ⟨f, rfl⟩ : ∃ f, fuel = f + 1 := ⟨fuel - 1, by omega⟩
      show parseValue (f + 1) ('[' :: ('\n' ::
        ((spacesN (2 * (level + 1)) ++ dumpJson x (level + 1) ++
          dumpItems xs (level + 1) ++
          '\n' :: (spacesN (2 * level) ++ [']'])) ++ rest))) = _
      rw [parseValue_step f '[' _ (by decide)]
      rw [show (spacesN (2 * (level + 1)) ++ dumpJson x (level + 1) ++
          dumpItems xs (level + 1) ++
          '\n' :: (spacesN (2 * level) ++ [']'])) ++ rest =
        spacesN (2 * (level + 1)) ++ (dumpJson x (level + 1) ++
          (dumpItems xs (level + 1) ++
            ('\n' :: (spacesN (2 * level) ++ (']' :: rest))))) from by simp]
      show (if (skipWs ('\n' :: (spacesN (2 * (level + 1)) ++
            (dumpJson x (level + 1) ++ (dumpItems xs (level + 1) ++
              ('\n' :: (spacesN (2 * level) ++ (']' :: rest)))))))).head? =
            some ']' then
          some (Json.arr [], (skipWs ('\n' :: (spacesN (2 * (level + 1)) ++
            (dumpJson x (level + 1) ++ (dumpItems xs (level + 1) ++
              ('\n' :: (spacesN (2 * level) ++ (']' :: rest)))))))).tail)
        else parseElems f ('\n' :: (spacesN (2 * (level + 1)) ++
          (dumpJson x (level + 1) ++ (dumpItems xs (level + 1) ++
            ('\n' :: (spacesN (2 * level) ++ (']' :: rest))))))) []) = _
      rw [if_neg (by
        rw [skipWs_indent]
        exact skipWs_dump_head_ne x (level + 1) _ ']' (Or.inl rfl))]
      rw [parseElems_dump (level + 1) level xs x f [] rest
        (fun z hz fuel2 lv2 r2 hs2 hb2 => ih z (by
          rcases hz with rfl | hz
          · exact List.mem_cons_self z xs
          · exact List.mem_cons_of_mem x hz) fuel2 lv2 r2 hs2 hb2)
        (by simp only [jsize, jsizeList] at hf; omega)]
      rfl
  | hobj l ih =>
    intro fuel level rest hf hb
    cases l with
    | nil =>
      have h1 := jsize_pos (Json.obj [])
      obtain ⟨f, rfl⟩ : ∃ f, fuel = f + 1 := ⟨fuel - 1, by omega⟩
      show parseValue (f + 1) ('\x7b' :: ('\x7d' :: rest)) = _
      rw [parseValue_step f '\x7b' _ (by decide)]
      show (if (skipWs ('\x7d' :: rest)).head? = some '\x7d' then
          some (Json.obj [], (skipWs ('\x7d' :: rest)).tail)
        else parseMembers f ('\x7d' :: rest) []) = _
      rw [show skipWs ('\x7d' :: rest) = '\x7d' :: rest from
        skipWs_cons_nonWs _ (by decide)]
      rfl
    | cons kv fs =>
      obtain ⟨k, v⟩ := kv
      have h1 := jsize_pos (Json.obj ((k, v) :: fs))
      obtain ⟨f, rfl⟩ : ∃ f, fuel = f + 1 := ⟨fuel - 1, by omega⟩
      show parseValue (f + 1) ('\x7b' :: ('\n' ::
        ((spacesN (2 * (level + 1)) ++
          ('"' :: (escapeStr k.data ++ '"' :: ':' :: ' ' ::
            dumpJson v (level + 1))) ++
          dumpFields fs (level + 1) ++
          '\n' :: (spacesN (2 * level) ++ ['\x7d'])) ++ rest))) = _
      rw [parseValue_step f '\x7b' _ (by decide)]
      rw [show (spacesN (2 * (level + 1)) ++
          ('"' :: (escapeStr k.data ++ '"' :: ':' :: ' ' ::
            dumpJson v (level + 1))) ++
          dumpFields fs (level + 1) ++
          '\n' :: (spacesN (2 * level) ++ ['\x7d'])) ++ rest =
        spacesN (2 * (level + 1)) ++ ('"' ::
          (escapeStr k.data ++ ('"' :: ':' :: ' ' ::
            (dumpJson v (level + 1) ++ (dumpFields fs (level + 1) ++
              ('\n' :: (spacesN (2 * level) ++ ('\x7d' :: rest)))))))) from
        by simp]
      show (if (skipWs ('\n' :: (spacesN (2 * (level + 1)) ++ ('"' ::
            (escapeStr k.data ++ ('"' :: ':' :: ' ' ::
              (dumpJson v (level + 1) ++ (dumpFields fs (level + 1) ++
                ('\n' :: (spacesN (2 * level) ++
                  ('\x7d' :: rest))))))))))).head? = some '\x7d' then
          some (Json.obj [],
            (skipWs ('\n' :: (spacesN (2 * (level + 1)) ++ ('"' ::
              (escapeStr k.data ++ ('"' :: ':' :: ' ' ::
                (dumpJson v (level + 1) ++ (dumpFields fs (level + 1) ++
                  ('\n' :: (spacesN (2 * level) ++
                    ('\x7d' :: rest))))))))))).tail)
        else parseMembers f ('\n' :: (spacesN (2 * (level + 1)) ++ ('"' ::
          (escapeStr k.data ++ ('"' :: ':' :: ' ' ::
            (dumpJson v (level + 1) ++ (dumpFields fs (level + 1) ++
              ('\n' :: (spacesN (2 * level) ++
                ('\x7d' :: rest)))))))))) []) = _
      rw [if_neg (by
        rw [skipWs_indent, skipWs_cons_nonWs _ (by decide)]
        intro h
        simp only [List.head?_cons, Option.some.injEq] at h
        exact absurd h (by decide))]
      rw [parseMembers_dump (level + 1) level fs k v f [] rest
        (fun z hz fuel2 lv2 r2 hs2 hb2 => (by
          rcases hz with rfl | hz
          · exact ih (k, z) (List.mem_cons_self (k, z) fs) fuel2 lv2 r2
              hs2 hb2
          · obtain ⟨p, hp, hpz⟩ := List.mem_map.mp hz
            have := ih p (List.mem_cons_of_mem (k, v) hp) fuel2 lv2 r2
            rw [hpz] at this
            exact this hs2 hb2))
        (by simp only [jsize, jsizeFields] at hf; omega)]
      rfl

/-- `json.loads` inverts `json.dumps` exactly. -/
theorem loads_dumps (j : Json) : loads (dumps j) = some j := by
  have h := parse_dump j ((dumpJson j 0).length + 1) 0 []
    (by have := jsize_le_dump j 0; omega) numBoundary_nil
  rw [List.append_nil] at h
  show (match parseValue ((dumpJson j 0).length + 1) (dumpJson j 0) with
    | some (v, rest) => if (skipWs rest).isEmpty then some v else none
    | none => none) = some j
  rw [h]
  rfl

/-- `k` does not occur among the keys of the field list. -/
def keysFresh (k : String) : List (String × Json) → Bool
  | [] => true
  | (k2, _) :: fs => !(k == k2) && keysFresh k fs

mutual

/-- Every object in the document has pairwise-distinct keys, i.e. the
document is the image of a Python value (whose dicts cannot repeat keys). -/
def uniqKeys : Json → Bool
  | .arr items => uniqKeysList items
  | .obj fields => uniqKeysFields fields
  | _ => true

def uniqKeysList : List Json → Bool
  | [] => true
  | x :: xs => uniqKeys x && uniqKeysList xs

def uniqKeysFields : List (String × Json) → Bool
  | [] => true
  | (k, v) :: fs => keysFresh k fs && uniqKeys v && uniqKeysFields fs

end

/-- **C5** Document store round-trip: `load_json` returns the default when
the file is absent or when its contents do not parse as JSON, and for every
JSON-representable document `d` (arrays, nested objects, unicode strings —
any `Json` value whose objects have distinct keys, as every Python dict
does), `load_json` after `save_json d` returns exactly `d`. -/
theorem C5_document_store_roundtrip (default d : Json) (s : String)
    (hbad : loads s = none) (_hd : uniqKeys d = true) :
    load_json none default = default ∧
    load_json (some s) default = default ∧
    load_json (some (save_json d)) default = d := by
  refine ⟨rfl, ?_, ?_⟩
  · simp only [load_json, hbad]
  · simp only [load_json, save_json, loads_dumps]

theorem C5_document_store_roundtrip_witness :
    loads "\x7binvalid" = none ∧
    uniqKeys (Json.obj [("a", Json.arr [Json.num 1, Json.num (-2),
      Json.str "café", Json.null, Json.bool true]),
      ("b", Json.obj [("x", Json.str "😀"), ("y", Json.arr [])])]) = true ∧
    (load_json none Json.null = Json.null ∧
     load_json (some "\x7binvalid") Json.null = Json.null ∧
     load_json (some (save_json (Json.obj [("a", Json.arr [Json.num 1,
        Json.num (-2), Json.str "café", Json.null, Json.bool true]),
        ("b", Json.obj [("x", Json.str "😀"),
          ("y", Json.arr [])])]))) Json.null =
       Json.obj [("a", Json.arr [Json.num 1, Json.num (-2),
         Json.str "café", Json.null, Json.bool true]),
         ("b", Json.obj [("x", Json.str "😀"), ("y", Json.arr [])])]) :=
  ⟨by decide, by decide,
    C5_document_store_roundtrip Json.null _ "\x7binvalid"
      (by decide) (by decide)⟩

end Aura
